import Mathlib

/-!
Verification of the multi-source survey-consolidation ETL
(`Data/db_insert/insert_1st.py`, `insert_2nd.py`, `insert_qpoll.py`,
`insert_all.py`, `drop_table.py`).

The Python scripts read tabular files with pandas and merge them into four
PostgreSQL tables (`respondents`, `metadata`, `codebooks`, `answers`).
This file gives a shallow embedding:

* a spreadsheet cell is `Option String` (`none` models a pandas `NaN`);
* Python string operations (`strip`, `lower`, `upper`, `split(',')`,
  `isdigit`, `startswith`, `endswith`, `replace`) are re-implemented on
  `List Char` so that everything evaluates inside the kernel;
* the store is a record of the four collections: `respondents` as the set
  of primary keys, `metadata` and `codebooks` as key-indexed maps (the
  tables have a UNIQUE/PRIMARY KEY on that column), `answers` as a bag of
  rows (the `answer_id SERIAL` surrogate key is not modelled);
* each SQL statement of the scripts becomes a function on that store:
  `INSERT .. ON CONFLICT (mb_sn) DO NOTHING` is set union,
  `INSERT .. ON CONFLICT DO UPDATE SET f = COALESCE(old.f, EXCLUDED.f)`
  is a per-field first-writer-wins merge, `INSERT .. ON CONFLICT DO
  UPDATE SET data = EXCLUDED.data` is overwrite, and the
  `DELETE .. WHERE mb_sn = ANY(%s) AND question_id LIKE %s` /
  `INSERT` pair is `replace_answers` below.  The SQL `LIKE` pattern is
  modelled with its real semantics: `_` matches any single character.
-/

namespace Eternal

/-- A spreadsheet cell as seen through pandas: `none` is `NaN` (empty cell). -/
abbrev Cell := Option String

/-- Python `str(val)` on a cell: pandas `NaN` prints as the string "nan". -/
def cellStr (c : Cell) : String :=
  match c with
  | none => "nan"
  | some s => s

/-- Python `s.strip()`: drop leading and trailing whitespace. -/
def pyStrip (s : String) : String :=
  ⟨((s.data.dropWhile Char.isWhitespace).reverse.dropWhile Char.isWhitespace).reverse⟩

/-- Python `s.lower()` (charwise; enough for the ASCII uses in the scripts). -/
def pyLower (s : String) : String := ⟨s.data.map Char.toLower⟩

/-- Python `s.upper()` (charwise). -/
def pyUpper (s : String) : String := ⟨s.data.map Char.toUpper⟩

/-- Python `str(val).strip()` applied to a raw cell — the id cleaning used by
`insert_1st.py` and `insert_2nd.py` (note: a `NaN` cell becomes `"nan"`). -/
def rawStrip (c : Cell) : String := pyStrip (cellStr c)

/-- `clean_cell` from `insert_qpoll.py`: `NaN`, whitespace and the textual
marker "nan" (case-insensitive) all become the empty string. -/
def clean_cell (c : Cell) : String :=
  match c with
  | none => ""
  | some v =>
    let s := pyStrip v
    if pyLower s = "nan" then "" else s

/-- Python `s.split(',')` on the character list (every comma splits; no
merging of adjacent separators, exactly like `str.split` with an argument). -/
def splitCommaAux (acc : List Char) : List Char → List (List Char)
  | [] => [acc.reverse]
  | c :: cs =>
    if c = ',' then acc.reverse :: splitCommaAux [] cs
    else splitCommaAux (c :: acc) cs

/-- `[val.strip() for val in answer_string.split(',') if val.strip()]` —
the multi-value explosion shared by `insert_2nd.py` and `insert_qpoll.py`. -/
def split_values (s : String) : List String :=
  ((splitCommaAux [] s.data).map (fun l => pyStrip ⟨l⟩)).filter (fun v => v ≠ "")

/-- Python `s.isdigit()`: non-empty and all digits. -/
def pyIsDigit (s : String) : Bool := !s.data.isEmpty && s.data.all Char.isDigit

/-- Python `s.startswith(p)`. -/
def pyStartsWith (p s : String) : Bool := p.data.isPrefixOf s.data

/-- Python `s.endswith(p)`. -/
def pyEndsWith (p s : String) : Bool := p.data.isSuffixOf s.data

/-- Python `s.replace('\n', ' ')` (single-character pattern, so a charwise
map is exact). -/
def replaceNewline (s : String) : String :=
  ⟨s.data.map (fun ch => if ch = '\n' then ' ' else ch)⟩

/-- Dictionary-style lookup in an association list built by Python
`dict` comprehension / repeated assignment: the LAST binding of a key wins. -/
def dictGet (l : List (String × String)) (k : String) : Option String :=
  l.foldl (fun acc p => if p.1 = k then some p.2 else acc) none

/-- One row of the `metadata` table (SQL values rendered as text;
`none` is SQL `NULL`).  `insert_1st.py` stores `age` as a formatted string
and never touches `birth_year`; `insert_qpoll.py` stores integers for
`birth_year`/`age` — both rendered through `toString` here. -/
structure MetaRow where
  mobile_carrier : Option String
  gender : Option String
  birth_year : Option String
  age : Option String
  region : Option String
deriving DecidableEq, Repr

/-- One row of the `answers` table (without the `answer_id` surrogate key). -/
structure AnswerRec where
  mb_sn : String
  question_id : String
  answer_value : String
deriving DecidableEq, Repr

/-- The JSON payload stored in `codebooks.codebook_data`:
`{"codebook_id": .., "q_title": .., "answers": [{"qi_val", "qi_title"}..]}`. -/
structure CodebookData where
  codebook_id : String
  q_title : String
  answers : List (String × String)
deriving DecidableEq, Repr

/-- The `metadata` table, keyed by its UNIQUE `mb_sn` column. -/
abbrev MetaMap := String → Option MetaRow

/-- The `codebooks` table, keyed by its PRIMARY KEY `codebook_id`. -/
abbrev CbMap := String → Option CodebookData

/-- The shared store: the four collections every ETL script writes into. -/
structure Store where
  respondents : Finset String
  metadata : MetaMap
  codebooks : CbMap
  answers : List AnswerRec

/-- SQL `COALESCE(old, cand)`: keep `old` when non-NULL, else adopt `cand`. -/
def coalesce (old cand : Option String) : Option String :=
  match old with
  | some v => some v
  | none => cand

/-- The `ON CONFLICT (mb_sn) DO UPDATE SET f = COALESCE(metadata.f,
EXCLUDED.f)` merge used by both `insert_1st.py` and `insert_qpoll.py`,
applied field by field. -/
def coalesceMerge (old cand : MetaRow) : MetaRow :=
  ⟨coalesce old.mobile_carrier cand.mobile_carrier,
   coalesce old.gender cand.gender,
   coalesce old.birth_year cand.birth_year,
   coalesce old.age cand.age,
   coalesce old.region cand.region⟩

/-- Upsert of one metadata row: insert the candidate when the key is absent,
else merge field-wise with `COALESCE` (first-writer-wins per field). -/
def upsert_metadata (m : MetaMap) (id : String) (cand : MetaRow) : MetaMap :=
  fun k =>
    if k = id then
      some (match m id with
            | some r => coalesceMerge r cand
            | none => cand)
    else m k

/-- `execute_values` over a metadata batch: the rows are applied in order. -/
def upsert_metadata_batch (m : MetaMap) (batch : List (String × MetaRow)) : MetaMap :=
  batch.foldl (fun acc p => upsert_metadata acc p.1 p.2) m

/-- `INSERT INTO codebooks .. ON CONFLICT (codebook_id) DO UPDATE SET
codebook_data = EXCLUDED.codebook_data`: whole-record overwrite. -/
def upsert_codebook (m : CbMap) (id : String) (d : CodebookData) : CbMap :=
  fun k => if k = id then some d else m k

/-- A batch of codebook upserts, applied in order. -/
def upsert_codebook_batch (m : CbMap) (batch : List (String × CodebookData)) : CbMap :=
  batch.foldl (fun acc p => upsert_codebook acc p.1 p.2) m

/-- SQL `LIKE` matching for the pattern `pat ++ "%"`: each pattern character
matches itself, except `_` which matches ANY single character; the trailing
`%` absorbs the rest.  (The script prefixes contain no `%`, but `'w2_'` and
`'qp<date>_'` do contain the `_` wildcard — modelled faithfully.) -/
def likeMatchList : List Char → List Char → Bool
  | [], _ => true
  | _ :: _, [] => false
  | p :: ps, c :: cs => (p = '_' || p = c) && likeMatchList ps cs

/-- `question_id LIKE '<pre>%'` as executed by PostgreSQL. -/
def likePrefixMatch (pre s : String) : Bool := likeMatchList pre.data s.data

/-- The idempotent answer replacement of `insert_2nd.py` / `insert_qpoll.py`:
`DELETE FROM answers WHERE mb_sn = ANY(%s) AND question_id LIKE '<pre>%'`
followed by a bulk `INSERT` of the fresh records.  (The script guards both
statements behind non-emptiness tests; on empty inputs the guarded and
unguarded forms coincide, since the filter keeps everything and `++ []` is
the identity.) -/
def replace_answers (ans : List AnswerRec) (pre : String) (ids : Finset String)
    (recs : List AnswerRec) : List AnswerRec :=
  ans.filter (fun r => !(decide (r.mb_sn ∈ ids) && likePrefixMatch pre r.question_id)) ++ recs

/-! ### Shared configuration lists -/

/-- `ID_CANDIDATES` — candidate id-column names, in priority order. -/
def ID_CANDIDATES : List String := ["mb_sn", "고유번호", "패널ID", "id"]

/-- `METADATA_COLUMNS` of `insert_qpoll.py`. -/
def METADATA_COLUMNS : List String := ["구분", "성별", "나이", "지역"]

/-- `COLUMNS_TO_IGNORE` of `insert_qpoll.py`. -/
def COLUMNS_TO_IGNORE : List String := ["설문일시"]

/-- A parsed data row as the scripts see it: `row._asdict()`, an ordered
(column-name, cell) association (pandas keeps column names unique). -/
abbrev Row := List (String × Cell)

/-- `row_dict.get(col, '')` — missing key falls back to the empty string. -/
def rowGetD (row : Row) (k : String) : Cell := (row.lookup k).getD (some "")

/-- `row_dict.get(col)` — missing key falls back to `None`, which behaves
like `NaN` under `pd.isna`/`clean_cell`. -/
def rowGet (row : Row) (k : String) : Cell := (row.lookup k).getD none

/-! ### insert_1st.py — Welcome 1st (respondents + metadata) -/

/-- Python `int(s)` for a digit string. -/
def strToNat (s : String) : Nat :=
  s.data.foldl (fun n c => 10 * n + (c.toNat - '0'.toNat)) 0

/-- `calculate_age_format` from `insert_1st.py`: a 4-digit birth year becomes
`"<y>년 (만 <current-y>세)"`, anything else is returned unchanged.  The
current year (`datetime.now().year`) is passed explicitly. -/
def calculate_age_format (currentYear : Int) (s : String) : String :=
  if pyIsDigit s ∧ s.data.length = 4 then
    let b : Int := (strToNat s : Nat)
    toString b ++ "년 (만 " ++ toString (currentYear - b) ++ "세)"
  else s

/-- `map_gender` from `insert_1st.py`: `'M'`/`'F'` (any case, padded) become
`'남성'`/`'여성'`; anything else is returned as given. -/
def map_gender_w1 (g : String) : String :=
  let gs := pyUpper (pyStrip g)
  if gs = "M" then "남성" else if gs = "F" then "여성" else g

/-- The id-column resolution of `process_welcome_etl`: first candidate
present in the header, then the `'mb_sn'`-override branch. -/
def resolveIdCol (cols : List String) : Option String :=
  match ID_CANDIDATES.find? (fun c => cols.contains c) with
  | none => none
  | some c => if c ≠ "mb_sn" ∧ cols.contains "mb_sn" then some "mb_sn" else some c

/-- The respondent id of a Welcome row: `str(row_dict.get(id_column, '')).strip()`
— note: no `clean_cell`, so a `NaN` cell yields the literal string `"nan"`. -/
def w1_row_id (idcol : String) (row : Row) : String := rawStrip (rowGetD row idcol)

/-- The metadata tuple `insert_1st.py` builds from one row
(`mobile_carrier = None`; `birth_year` is not in its column list). -/
def w1_row_meta (currentYear : Int) (row : Row) : MetaRow :=
  let q1 := rawStrip (rowGetD row "Q12_1")
  let q2 := rawStrip (rowGetD row "Q12_2")
  ⟨none,
   some (map_gender_w1 (rawStrip (rowGetD row "Q10"))),
   none,
   some (calculate_age_format currentYear (rawStrip (rowGetD row "Q11"))),
   some (if q1 ≠ "" ∧ q2 ≠ "" then q1 ++ " " ++ q2 else if q1 ≠ "" then q1 else q2)⟩

/-- `respondents_to_insert` of `insert_1st.py`: the set of non-empty row ids. -/
def w1_respondents (idcol : String) (rows : List Row) : Finset String :=
  (rows.filterMap (fun r =>
    if w1_row_id idcol r = "" then none else some (w1_row_id idcol r))).toFinset

/-- `metadata_to_insert_list` of `insert_1st.py` (row order, duplicates kept). -/
def w1_meta_batch (currentYear : Int) (idcol : String) (rows : List Row) :
    List (String × MetaRow) :=
  rows.filterMap (fun r =>
    if w1_row_id idcol r = "" then none
    else some (w1_row_id idcol r, w1_row_meta currentYear r))

/-- One run of `process_welcome_etl` on the store (no id column ⇒ the file
is skipped). -/
def w1_run (currentYear : Int) (cols : List String) (rows : List Row) (s : Store) : Store :=
  match resolveIdCol cols with
  | none => s
  | some idcol =>
    { s with
      respondents := s.respondents ∪ w1_respondents idcol rows,
      metadata := upsert_metadata_batch s.metadata (w1_meta_batch currentYear idcol rows) }

/-! ### insert_2nd.py — Welcome 2nd vertical codebook -/

/-- The type markers that disqualify a row from being a choice:
`('SINGLE', 'Numeric', 'String', 'nan')`. -/
def TYPE_MARKERS : List String := ["SINGLE", "Numeric", "String", "nan"]

/-- Parser state of the vertical-codebook loop: emitted objects, the open
question (id, title) and its accumulated choices. -/
structure CbState where
  objs : List CodebookData
  curId : Option String
  curTitle : String
  curAnswers : List (String × String)

/-- Close the open question, emitting its `CodebookEntry` (a no-op when no
question is open). -/
def cbEmit (pre : String) (st : CbState) : List CodebookData :=
  match st.curId with
  | some q => st.objs ++ [⟨pre ++ q, st.curTitle, st.curAnswers⟩]
  | none => st.objs

/-- One iteration of the vertical-codebook loop in `process_codebook_etl`
(`insert_2nd.py`): a row whose first cell is non-`NaN` and non-blank opens a
new question (closing the previous one); otherwise, when cells 2 and 3 are
non-`NaN`, the row is a candidate choice, kept when cell 2 is all digits and
cell 3 is not a type marker. -/
def cbStep (pre : String) (st : CbState) (row : Cell × Cell × Cell) : CbState :=
  let var_name := rawStrip row.1
  let question_text := rawStrip row.2.1
  let question_type := rawStrip row.2.2
  if row.1 ≠ none ∧ var_name ≠ "" then
    ⟨cbEmit pre st, some var_name, question_text, []⟩
  else if row.2.1 ≠ none ∧ row.2.2 ≠ none then
    if pyIsDigit question_text ∧ ¬ TYPE_MARKERS.contains question_type then
      { st with curAnswers := st.curAnswers ++ [(question_text, question_type)] }
    else st
  else st

/-- The vertical codebook parser: fold the loop over the rows, then close
the last open question at end of input. -/
def parseVertical (pre : String) (rows : List (Cell × Cell × Cell)) : List CodebookData :=
  cbEmit pre (rows.foldl (cbStep pre) ⟨[], none, "", []⟩)

/-- Python-dict upsert on an association list: an existing key keeps its
position but takes the new value; a new key is appended. -/
def dictUpsertCb (d : List (String × CodebookData)) (k : String) (v : CodebookData) :
    List (String × CodebookData) :=
  if d.any (fun p => p.1 = k) then d.map (fun p => if p.1 = k then (k, v) else p)
  else d ++ [(k, v)]

/-- The `data_to_insert` batch of `process_codebook_etl`: drop the
`'<pre>mb_sn'` pseudo-question, then de-duplicate ids through a dict
(last value wins, first-occurrence order). -/
def w2_codebook_batch (pre : String) (rows : List (Cell × Cell × Cell)) :
    List (String × CodebookData) :=
  ((parseVertical pre rows).filterMap (fun o =>
    if o.codebook_id = pre ++ "mb_sn" then none else some (o.codebook_id, o))).foldl
    (fun d p => dictUpsertCb d p.1 p.2) []

/-- One run of `process_codebook_etl` (`insert_2nd.py`) on the store. -/
def w2_codebook_run (pre : String) (rows : List (Cell × Cell × Cell)) (s : Store) : Store :=
  { s with codebooks := upsert_codebook_batch s.codebooks (w2_codebook_batch pre rows) }

/-! ### insert_2nd.py — Welcome 2nd data file -/

/-- The respondent id of a Welcome-2nd data row — again the raw
`str(...).strip()`, with no `clean_cell`. -/
def w2_row_id (row : Row) : String := rawStrip (rowGetD row "mb_sn")

/-- The records one answer cell contributes in `insert_2nd.py`:
`answer_string = str(raw).strip()`; an empty result is skipped, otherwise
one record per comma-separated token. -/
def w2_cell_recs (R Q : String) (c : Cell) : List AnswerRec :=
  let answer_string := rawStrip c
  if answer_string = "" then []
  else (split_values answer_string).map (fun v => ⟨R, Q, v⟩)

/-- The answer records one Welcome-2nd row contributes: every non-id,
non-`NaN` column is unpivoted under its prefixed question id. -/
def w2_row_recs (pre : String) (row : Row) : List AnswerRec :=
  row.flatMap (fun p =>
    if p.1 = "mb_sn" ∨ p.2 = none then []
    else w2_cell_recs (w2_row_id row) (pre ++ p.1) p.2)

/-- `respondents_to_insert` of `insert_2nd.py`. -/
def w2_respondents (rows : List Row) : Finset String :=
  (rows.filterMap (fun r =>
    if w2_row_id r = "" then none else some (w2_row_id r))).toFinset

/-- `answers_to_insert` of `insert_2nd.py` (rows with an empty id skipped). -/
def w2_answers (pre : String) (rows : List Row) : List AnswerRec :=
  rows.flatMap (fun r => if w2_row_id r = "" then [] else w2_row_recs pre r)

/-- One run of `process_data_etl` (`insert_2nd.py`): respondents are
insert-if-absent, answers are wholesale-replaced for (prefix, file
respondent set).  A file without an `mb_sn` column is skipped. -/
def w2_data_run (pre : String) (cols : List String) (rows : List Row) (s : Store) : Store :=
  if cols.contains "mb_sn" then
    { s with
      respondents := s.respondents ∪ w2_respondents rows,
      answers := replace_answers s.answers pre (w2_respondents rows) (w2_answers pre rows) }
  else s

/-- A full Welcome-2nd source run: codebook pass, then data pass
(`main` of `insert_2nd.py`, with `PREFIX = 'w2_'` left as a parameter). -/
def w2_run (pre : String) (cbRows : List (Cell × Cell × Cell)) (cols : List String)
    (rows : List Row) (s : Store) : Store :=
  w2_data_run pre cols rows (w2_codebook_run pre cbRows s)

/-! ### insert_qpoll.py — horizontal codebook (Sheet 2) -/

/-- `map_gender` from `insert_qpoll.py`: `'남'`/`'여'` become
`'남성'`/`'여성'`; anything else is returned as given. -/
def map_gender_qp (g : String) : String :=
  if g = "남" then "남성" else if g = "여" then "여성" else g

/-- Python-dict upsert for the metadata batch: existing key keeps its
position, takes the new value; new key appended. -/
def dictUpsertMeta (d : List (String × MetaRow)) (k : String) (v : MetaRow) :
    List (String × MetaRow) :=
  if d.any (fun p => p.1 = k) then d.map (fun p => if p.1 = k then (k, v) else p)
  else d ++ [(k, v)]

/-- One Sheet-2 row of `process_codebook_etl` (`insert_qpoll.py`): the
`'설문제목'` cell is title and id; metadata/id names are skipped; the
`'보기1'..'보기10'` cells become the ordered choice list (ordinal as code). -/
def qpCb_row_entry (pre : String) (row : Row) : Option (String × CodebookData) :=
  let q_title := rawStrip (rowGetD row "설문제목")
  if q_title = "" then none
  else if METADATA_COLUMNS.contains q_title ∨ ID_CANDIDATES.contains q_title then none
  else
    let uid := pre ++ replaceNewline q_title
    let answers := (List.range 10).filterMap (fun i0 =>
      let key := "보기" ++ toString (i0 + 1)
      let qi_title := rawStrip (rowGetD row key)
      if qi_title ≠ "" ∧ rowGet row key ≠ none then some (toString (i0 + 1), qi_title)
      else none)
    some (uid, ⟨uid, q_title, answers⟩)

/-- `codebook_dict` of `insert_qpoll.py`: id-keyed dict, duplicate ids take
the last value. -/
def qpoll_cb_dict (pre : String) (rows : List Row) : List (String × CodebookData) :=
  rows.foldl (fun d r =>
    match qpCb_row_entry pre r with
    | none => d
    | some (k, v) => dictUpsertCb d k v) []

/-- One run of `process_codebook_etl` (`insert_qpoll.py`) on the store. -/
def qpoll_codebook_run (pre : String) (rows : List Row) (s : Store) : Store :=
  { s with codebooks := upsert_codebook_batch s.codebooks (qpoll_cb_dict pre rows) }

/-! ### insert_qpoll.py — two-row header and data (Sheet 1) -/

/-- A title cell participates in forward-fill when it is non-`NaN` and not a
pandas auto-placeholder (`str(val).startswith('Unnamed')`). -/
def validTitle (c : Cell) : Bool := c.isSome && !pyStartsWith "Unnamed" (cellStr c)

/-- `str(val).strip().replace('\n', ' ')` — title normalisation. -/
def cleanTitle (s : String) : String := replaceNewline (pyStrip s)

/-- The forward-fill loop over the first header row, carrying
`last_title` (initially `''`). -/
def forwardFillFrom (last : String) : List Cell → List String
  | [] => []
  | c :: cs =>
    let last' := if validTitle c then cleanTitle (cellStr c) else last
    last' :: forwardFillFrom last' cs

/-- `title_columns` of `process_data_etl` (`insert_qpoll.py`): every column
inherits the nearest preceding valid title. -/
def forwardFill (cells : List Cell) : List String := forwardFillFrom "" cells

/-- `question_id_map`: zip the second-header short codes with the
forward-filled titles, dropping id, metadata, ignored and `'_ETC'` columns. -/
def qpoll_qmap (panelCols : List String) (titles : List String) : List (String × String) :=
  (panelCols.zip titles).filter (fun p =>
    !ID_CANDIDATES.contains p.1 && !METADATA_COLUMNS.contains p.1 &&
    !COLUMNS_TO_IGNORE.contains p.1 && !pyEndsWith "_ETC" p.1)

/-- Leftmost match of the regex `(19|20)\d{2}` (birth-year extraction in
`parse_qpoll_age_info`). -/
def findBirthYear : List Char → Option Nat
  | a :: b :: c :: d :: rest =>
    if ((a = '1' ∧ b = '9') ∨ (a = '2' ∧ b = '0')) ∧ c.isDigit ∧ d.isDigit then
      some (strToNat ⟨[a, b, c, d]⟩)
    else findBirthYear (b :: c :: d :: rest)
  | _ => none

/-- After the digit group of `만?\s*(\d{1,3})\s*세`, the tail must be
whitespace and then `'세'`. -/
def ageTail (ds : List Char) (rest : List Char) : Option Nat :=
  match rest.dropWhile Char.isWhitespace with
  | '세' :: _ => some (strToNat ⟨ds⟩)
  | _ => none

/-- Attempt of the regex `만?\s*(\d{1,3})\s*세` anchored at the current
position: optional `'만'`, whitespace, then a greedy 1–3 digit group with
backtracking against the `'세'` suffix. -/
def tryAgeAt (l : List Char) : Option Nat :=
  let l1 := match l with
            | '만' :: t => t
            | _ => l
  match l1.dropWhile Char.isWhitespace with
  | d1 :: t1 =>
    if d1.isDigit then
      match t1 with
      | d2 :: t2 =>
        if d2.isDigit then
          match t2 with
          | d3 :: t3 =>
            if d3.isDigit then
              match ageTail [d1, d2, d3] t3 with
              | some n => some n
              | none =>
                match ageTail [d1, d2] t2 with
                | some n => some n
                | none => ageTail [d1] t1
            else
              match ageTail [d1, d2] t2 with
              | some n => some n
              | none => ageTail [d1] t1
          | [] =>
            match ageTail [d1, d2] t2 with
            | some n => some n
            | none => ageTail [d1] t1
        else ageTail [d1] t1
      | [] => ageTail [d1] t1
    else none
  | [] => none

/-- `re.search` scan for the age pattern: try every start position, leftmost
match wins. -/
def findAge : List Char → Option Nat
  | [] => none
  | c :: cs =>
    match tryAgeAt (c :: cs) with
    | some n => some n
    | none => findAge cs

/-- `parse_qpoll_age_info` from `insert_qpoll.py`: extract (birth year, age)
from the raw age text via the two regex searches. -/
def parse_qpoll_age_info (s : String) : Option Nat × Option Nat :=
  if s = "" then (none, none)
  else
    let t := pyStrip s
    (findBirthYear t.data, findAge t.data)

/-- The metadata tuple one qpoll data row contributes (every field goes
through `clean_cell`; gender mapped; birth year/age from the regexes,
rendered as SQL integer literals). -/
def qpoll_row_meta (row : Row) : MetaRow :=
  let ba := parse_qpoll_age_info (clean_cell (rowGet row "나이"))
  ⟨some (clean_cell (rowGet row "구분")),
   some (map_gender_qp (clean_cell (rowGet row "성별"))),
   ba.1.map (fun n => toString n),
   ba.2.map (fun n => toString n),
   some (clean_cell (rowGet row "지역"))⟩

/-- The records one answer cell contributes in `insert_qpoll.py`:
`answer_string = clean_cell(raw)`; an empty result is skipped, otherwise
one record per comma-separated token. -/
def qp_cell_recs (R Q : String) (c : Cell) : List AnswerRec :=
  let answer_string := clean_cell c
  if answer_string = "" then []
  else (split_values answer_string).map (fun v => ⟨R, Q, v⟩)

/-- The answer records one qpoll data row contributes (see `qp_cell_recs`
for the per-cell part). -/
def qpoll_row_recs (pre : String) (qmap : List (String × String)) (mb : String)
    (row : Row) : List AnswerRec :=
  row.flatMap (fun p =>
    if ID_CANDIDATES.contains p.1 ∨ METADATA_COLUMNS.contains p.1 ∨
        COLUMNS_TO_IGNORE.contains p.1 then []
    else
      match dictGet qmap p.1 with
      | none => []
      | some t =>
        if t = "" then []
        else qp_cell_recs mb (pre ++ t) p.2)

/-- The accumulator of the qpoll data loop: respondents seen, the id-keyed
metadata dict, and the growing answer list. -/
abbrev QAcc := Finset String × List (String × MetaRow) × List AnswerRec

/-- One iteration of the qpoll data loop: rows whose `clean_cell`-ed id is
empty are dropped; otherwise the id is recorded, the metadata dict entry is
overwritten, and the row's answer records are appended. -/
def qpoll_step (idcol : String) (pre : String) (qmap : List (String × String))
    (st : QAcc) (row : Row) : QAcc :=
  let mb := clean_cell (rowGet row idcol)
  if mb = "" then st
  else (insert mb st.1, dictUpsertMeta st.2.1 mb (qpoll_row_meta row),
        st.2.2 ++ qpoll_row_recs pre qmap mb row)

/-- The whole qpoll data loop over the file's rows. -/
def qpoll_fold (idcol : String) (pre : String) (qmap : List (String × String))
    (rows : List Row) : QAcc :=
  rows.foldl (qpoll_step idcol pre qmap) (∅, [], [])

/-- One run of `process_data_etl` (`insert_qpoll.py`): build the header maps
from the two header rows, resolve the id column (no id column ⇒ file
skipped), fold the rows, then upsert respondents and metadata and replace
this prefix's answers. -/
def qpoll_data_run (pre : String) (titleRow : List Cell) (panelColsRaw : List String)
    (dataCells : List (List Cell)) (s : Store) : Store :=
  let panelCols := panelColsRaw.map pyStrip
  match ID_CANDIDATES.find? (fun c => panelCols.contains c) with
  | none => s
  | some idcol =>
    let qmap := qpoll_qmap panelCols (forwardFill titleRow)
    let acc := qpoll_fold idcol pre qmap (dataCells.map (fun cs => panelCols.zip cs))
    { s with
      respondents := s.respondents ∪ acc.1,
      metadata := upsert_metadata_batch s.metadata acc.2.1,
      answers := replace_answers s.answers pre acc.1 acc.2.2 }

/-- A full qpoll source run for one file: codebook pass, then data pass. -/
def qpoll_run (pre : String) (cbRows : List Row) (titleRow : List Cell)
    (panelColsRaw : List String) (dataCells : List (List Cell)) (s : Store) : Store :=
  qpoll_data_run pre titleRow panelColsRaw dataCells (qpoll_codebook_run pre cbRows s)

/-- The namespace prefix `main` of `insert_qpoll.py` derives for the file
`'qpoll_join_<d>.xlsx'`: `os.path.splitext` drops `'.xlsx'` and
`.replace('qpoll_join_', 'qp')` turns the fixed leading marker into `'qp'`
(for `d` not itself containing `'qpoll_join_'`), then `'_'` is appended. -/
def qpollFilePrefix (d : String) : String := "qp" ++ d ++ "_"

/-- The fixed `PREFIX = 'w2_'` of `insert_2nd.py`. -/
def W2_PREFIX : String := "w2_"

/-! ## Helper lemmas: the COALESCE merge -/

/-- The five metadata fields, as projections out of a `MetaRow`. -/
def metaFields : List (MetaRow → Option String) :=
  [MetaRow.mobile_carrier, MetaRow.gender, MetaRow.birth_year, MetaRow.age, MetaRow.region]

theorem metaField_coalesceMerge {f : MetaRow → Option String} (hf : f ∈ metaFields)
    (a b : MetaRow) : f (coalesceMerge a b) = coalesce (f a) (f b) := by
  simp only [metaFields, List.mem_cons, List.not_mem_nil, or_false] at hf
  rcases hf with rfl | rfl | rfl | rfl | rfl <;> rfl

theorem coalesce_some (v : String) (c : Option String) : coalesce (some v) c = some v := rfl

theorem coalesce_none (c : Option String) : coalesce none c = c := rfl

theorem upsert_metadata_batch_cons (m : MetaMap) (p : String × MetaRow)
    (tl : List (String × MetaRow)) :
    upsert_metadata_batch m (p :: tl) = upsert_metadata_batch (upsert_metadata m p.1 p.2) tl := rfl

/-- A non-null field value survives an arbitrary batch of later upserts. -/
theorem upsert_batch_keeps_some {f : MetaRow → Option String} (hf : f ∈ metaFields) :
    ∀ (batch : List (String × MetaRow)) (m : MetaMap) (id : String) (r : MetaRow) (v : String),
      m id = some r → f r = some v →
      ∃ r', upsert_metadata_batch m batch id = some r' ∧ f r' = some v := by
  intro batch
  induction batch with
  | nil => exact fun m id r v hm hv => ⟨r, hm, hv⟩
  | cons p tl ih =>
    intro m id r v hm hv
    rw [upsert_metadata_batch_cons]
    by_cases hk : id = p.1
    · have hm' : m p.1 = some r := by rw [← hk]; exact hm
      have hup : upsert_metadata m p.1 p.2 id = some (coalesceMerge r p.2) := by
        simp [upsert_metadata, hk, hm']
      refine ih _ _ _ _ hup ?_
      rw [metaField_coalesceMerge hf, hv]
      rfl
    · have hup : upsert_metadata m p.1 p.2 id = some r := by
        simp [upsert_metadata, hk, hm]
      exact ih _ _ _ _ hup hv

/-- C1 (confirmed).  For every metadata field: (a) once the stored value is
non-null, no later sequence of metadata upserts — from any source, since
both `insert_1st.py` and `insert_qpoll.py` run the same
`COALESCE(metadata.f, EXCLUDED.f)` merge — changes it; (b) a field whose
stored value is null takes exactly the next candidate value for that field
(so it is adopted from the next merge whose candidate is non-null, and left
null by merges whose candidate is null); (c) a respondent without a
metadata row adopts the candidate row wholesale. -/
theorem C1_first_writer_wins :
    ∀ f : MetaRow → Option String, f ∈ metaFields →
      (∀ (m : MetaMap) (batch : List (String × MetaRow)) (id : String) (r : MetaRow) (v : String),
        m id = some r → f r = some v →
        ∃ r', upsert_metadata_batch m batch id = some r' ∧ f r' = some v) ∧
      (∀ (m : MetaMap) (id : String) (cand r : MetaRow),
        m id = some r → f r = none →
        ∃ r', upsert_metadata m id cand id = some r' ∧ f r' = f cand) ∧
      (∀ (m : MetaMap) (id : String) (cand : MetaRow),
        m id = none → upsert_metadata m id cand id = some cand) := by
  intro f hf
  refine ⟨fun m batch id r v hm hv => upsert_batch_keeps_some hf batch m id r v hm hv,
          fun m id cand r hm hr => ⟨coalesceMerge r cand, ?_, ?_⟩,
          fun m id cand hm => ?_⟩
  · simp [upsert_metadata, hm]
  · rw [metaField_coalesceMerge hf, hr]
    rfl
  · simp [upsert_metadata, hm]

/-- Witness for C1: a store where respondent `"P1"` already has
gender `"남성"` and a null region; a later qpoll-style upsert brings
gender `"여성"` and region `"서울"`.  The non-null gender survives and the
null region adopts the candidate. -/
theorem C1_first_writer_wins_witness :
    (∃ r', upsert_metadata_batch
        (fun k => if k = "P1" then some ⟨none, some "남성", none, none, none⟩ else none)
        [("P1", ⟨some "SKT", some "여성", none, none, some "서울"⟩)] "P1" = some r' ∧
        MetaRow.gender r' = some "남성") ∧
    (∃ r', upsert_metadata
        (fun k => if k = "P1" then some ⟨none, some "남성", none, none, none⟩ else none)
        "P1" ⟨some "SKT", some "여성", none, none, some "서울"⟩ "P1" = some r' ∧
        MetaRow.region r' = MetaRow.region ⟨some "SKT", some "여성", none, none, some "서울"⟩) := by
  constructor
  · exact (C1_first_writer_wins MetaRow.gender
      (by simp only [metaFields]; exact .tail _ (.head _))).1 _ _ _
      ⟨none, some "남성", none, none, none⟩ "남성" (by decide) (by decide)
  · exact (C1_first_writer_wins MetaRow.region
      (by simp only [metaFields];
          exact .tail _ (.tail _ (.tail _ (.tail _ (.head _)))))).2.1 _ _ _
      ⟨none, some "남성", none, none, none⟩ (by decide) (by decide)

/-! ## Helper lemmas: SQL LIKE matching -/

theorem likeMatchList_append_self : ∀ (p rest : List Char), likeMatchList p (p ++ rest) = true := by
  intro p rest
  induction p with
  | nil => rfl
  | cons c cs ih => simp [likeMatchList, ih]

theorem likeMatch_head_false {p c : Char} (h1 : p ≠ '_') (h2 : p ≠ c) (ps cs : List Char) :
    likeMatchList (p :: ps) (c :: cs) = false := by
  simp [likeMatchList, h1, h2]

theorem likeMatch_cons_self (c : Char) (ps cs : List Char) :
    likeMatchList (c :: ps) (c :: cs) = likeMatchList ps cs := by
  simp [likeMatchList]

/-- A prefix that differs somewhere before its trailing wildcard never
LIKE-matches: equal-length underscore-free pattern and text segments that
differ refute the match regardless of what follows. -/
theorem likeMatch_diff : ∀ (l1 l2 rest1 rest2 : List Char), l1.length = l2.length →
    l1 ≠ l2 → '_' ∉ l1 → likeMatchList (l1 ++ rest1) (l2 ++ rest2) = false := by
  intro l1
  induction l1 with
  | nil =>
    intro l2 rest1 rest2 hlen hne _
    cases l2 with
    | nil => exact absurd rfl hne
    | cons d ds => simp at hlen
  | cons c cs ih =>
    intro l2 rest1 rest2 hlen hne hmem
    cases l2 with
    | nil => simp at hlen
    | cons d ds =>
      by_cases hcd : c = d
      · subst hcd
        rw [List.cons_append, List.cons_append, likeMatch_cons_self]
        refine ih ds rest1 rest2 (by simpa using hlen) ?_ ?_
        · intro h; exact hne (by rw [h])
        · intro h; exact hmem (List.mem_cons_of_mem _ h)
      · rw [List.cons_append, List.cons_append,
          likeMatch_head_false (fun h => hmem (h ▸ List.mem_cons_self _ _)) hcd]

theorem pyStartsWith_append_self (p rest : String) : pyStartsWith p (p ++ rest) = true := by
  unfold pyStartsWith
  rw [String.data_append]
  exact List.isPrefixOf_iff_prefix.mpr (List.prefix_append _ _)

theorem startsWith_implies_likeMatch {p s : String} (h : pyStartsWith p s = true) :
    likePrefixMatch p s = true := by
  unfold pyStartsWith at h
  obtain ⟨t, ht⟩ := List.isPrefixOf_iff_prefix.mp h
  unfold likePrefixMatch
  rw [← ht]
  exact likeMatchList_append_self _ _

theorem likePrefixMatch_append_self (pre q : String) :
    likePrefixMatch pre (pre ++ q) = true :=
  startsWith_implies_likeMatch (pyStartsWith_append_self pre q)

/-- C2 counterexample.  `replace_answers` runs the SQL
`DELETE .. WHERE question_id LIKE '<pre>%'`, in which the underscore of the
prefix is a single-character wildcard: with prefix `'w2_'` and respondent
set `{R}`, the pre-existing answer row `(R, "w2x", "v")` is deleted even
though its question id does NOT start with `'w2_'` — refuting the claim
that exactly the rows whose question id starts with the prefix are
deleted. -/
theorem C2_like_wildcard_counterexample :
    replace_answers [⟨"R", "w2x", "v"⟩] "w2_" {"R"} [] = [] ∧
    pyStartsWith "w2_" "w2x" = false := by decide

/-- C2 (corrected).  `replace_answers pre ids recs` (a) keeps a row with
multiplicity `count r s + count r recs` unless the row's respondent is in
`ids` AND its question id matches the SQL pattern `pre ++ '%'` (underscore
wildcard), in which case exactly the fresh copies remain — so the deletion
predicate is LIKE-matching, not literal starts-with; (b) every id that
literally starts with the prefix does LIKE-match, so the intended rows are
always among those deleted; (c,d,e) the concrete prefix families of the
repository — `'w2_'` and `'qp<base>_'` with equal-length, underscore-free
bases — never LIKE-match one another's ids, so cross-source isolation
holds: replacing one source's answers leaves every other source's rows for
the same respondents unchanged, with the same multiplicities. -/
theorem C2_replace_answers_amended :
    (∀ (ans : List AnswerRec) (pre : String) (ids : Finset String)
        (recs : List AnswerRec) (r : AnswerRec),
      List.count r (replace_answers ans pre ids recs) =
        (if r.mb_sn ∈ ids ∧ likePrefixMatch pre r.question_id = true then 0
          else List.count r ans) + List.count r recs) ∧
    (∀ pre q : String, likePrefixMatch pre (pre ++ q) = true) ∧
    (∀ b q : String, likePrefixMatch W2_PREFIX (qpollFilePrefix b ++ q) = false) ∧
    (∀ b q : String, likePrefixMatch (qpollFilePrefix b) (W2_PREFIX ++ q) = false) ∧
    (∀ b1 b2 q : String, b1.length = b2.length → b1 ≠ b2 → '_' ∉ b1.data →
      likePrefixMatch (qpollFilePrefix b1) (qpollFilePrefix b2 ++ q) = false) := by
  refine ⟨?_, likePrefixMatch_append_self, ?_, ?_, ?_⟩
  · intro ans pre ids recs r
    unfold replace_answers
    rw [List.count_append]
    congr 1
    by_cases h : r.mb_sn ∈ ids ∧ likePrefixMatch pre r.question_id = true
    · rw [if_pos h]
      refine List.count_eq_zero.mpr ?_
      intro hmem
      rw [List.mem_filter] at hmem
      have h2 := hmem.2
      simp [h.1, h.2] at h2
    · rw [if_neg h]
      refine List.count_filter ?_
      rcases not_and_or.mp h with hA | hB
      · simp [hA]
      · simp [Bool.not_eq_true] at hB
        simp [hB]
  · intro b q
    have hd : (qpollFilePrefix b ++ q).data = 'q' :: 'p' :: (b.data ++ '_' :: q.data) := by
      have h1 : ("qp" : String).data = ['q', 'p'] := rfl
      have h2 : ("_" : String).data = ['_'] := rfl
      simp [qpollFilePrefix, String.data_append, h1, h2]
    unfold likePrefixMatch W2_PREFIX
    rw [hd]
    have h3 : ("w2_" : String).data = ['w', '2', '_'] := rfl
    rw [h3]
    exact likeMatch_head_false (by decide) (by decide) _ _
  · intro b q
    have hd : (W2_PREFIX ++ q).data = 'w' :: '2' :: '_' :: q.data := by
      have h3 : ("w2_" : String).data = ['w', '2', '_'] := rfl
      simp [W2_PREFIX, String.data_append, h3]
    have hp : (qpollFilePrefix b).data = 'q' :: 'p' :: (b.data ++ ['_']) := by
      have h1 : ("qp" : String).data = ['q', 'p'] := rfl
      have h2 : ("_" : String).data = ['_'] := rfl
      simp [qpollFilePrefix, String.data_append, h1, h2]
    unfold likePrefixMatch
    rw [hd, hp]
    exact likeMatch_head_false (by decide) (by decide) _ _
  · intro b1 b2 q hlen hne hmem
    have hp : (qpollFilePrefix b1).data = 'q' :: 'p' :: (b1.data ++ ['_']) := by
      have h1 : ("qp" : String).data = ['q', 'p'] := rfl
      have h2 : ("_" : String).data = ['_'] := rfl
      simp [qpollFilePrefix, String.data_append, h1, h2]
    have hd : (qpollFilePrefix b2 ++ q).data = 'q' :: 'p' :: (b2.data ++ '_' :: q.data) := by
      have h1 : ("qp" : String).data = ['q', 'p'] := rfl
      have h2 : ("_" : String).data = ['_'] := rfl
      simp [qpollFilePrefix, String.data_append, h1, h2]
    unfold likePrefixMatch
    rw [hp, hd, likeMatch_cons_self, likeMatch_cons_self]
    refine likeMatch_diff b1.data b2.data ['_'] ('_' :: q.data) hlen ?_ hmem
    intro h
    exact hne (String.ext h)

/-- Witness for C2: the qpoll prefixes of two distinct dated files never
LIKE-match each other's ids, instantiated at dates 250106 / 250107. -/
theorem C2_replace_answers_amended_witness :
    likePrefixMatch (qpollFilePrefix "250106") (qpollFilePrefix "250107" ++ "공통Q1") = false :=
  C2_replace_answers_amended.2.2.2.2 "250106" "250107" "공통Q1" (by decide) (by decide) (by decide)

/-! ## Helper lemmas: idempotence of the merge operations -/

@[ext]
theorem Store.ext {s t : Store} (h1 : s.respondents = t.respondents)
    (h2 : s.metadata = t.metadata) (h3 : s.codebooks = t.codebooks)
    (h4 : s.answers = t.answers) : s = t := by
  cases s; cases t
  simp only at h1 h2 h3 h4
  subst h1; subst h2; subst h3; subst h4
  rfl

theorem union_union_self (s i : Finset String) : s ∪ i ∪ i = s ∪ i := by
  rw [Finset.union_assoc, Finset.union_self]

/-- One ON-CONFLICT step of the metadata merge, seen at a single key. -/
def mergeOpt (a : Option MetaRow) (c : MetaRow) : Option MetaRow :=
  some (match a with
        | some r => coalesceMerge r c
        | none => c)

/-- The candidates a batch throws at one key, applied in order. -/
def applyCands (a : Option MetaRow) (cs : List MetaRow) : Option MetaRow :=
  cs.foldl mergeOpt a

theorem applyCands_cons (a : Option MetaRow) (c : MetaRow) (cs : List MetaRow) :
    applyCands a (c :: cs) = applyCands (mergeOpt a c) cs := rfl

/-- Pointwise characterization: a metadata batch acts at key `k` exactly by
folding the candidates whose key is `k`. -/
theorem upsert_metadata_batch_apply : ∀ (batch : List (String × MetaRow)) (m : MetaMap)
    (k : String), upsert_metadata_batch m batch k =
      applyCands (m k) (batch.filterMap (fun p => if p.1 = k then some p.2 else none)) := by
  intro batch
  induction batch with
  | nil => intro m k; rfl
  | cons p tl ih =>
    intro m k
    rw [upsert_metadata_batch_cons, ih]
    by_cases hk : p.1 = k
    · have h1 : upsert_metadata m p.1 p.2 k = mergeOpt (m k) p.2 := by
        subst hk; simp [upsert_metadata, mergeOpt]
      have h2 : (p :: tl).filterMap (fun q => if q.1 = k then some q.2 else none) =
          p.2 :: tl.filterMap (fun q => if q.1 = k then some q.2 else none) := by
        simp [List.filterMap_cons, hk]
      rw [h1, h2, applyCands_cons]
    · have h1 : upsert_metadata m p.1 p.2 k = m k := by
        unfold upsert_metadata
        rw [if_neg (fun h => hk h.symm)]
      have h2 : (p :: tl).filterMap (fun q => if q.1 = k then some q.2 else none) =
          tl.filterMap (fun q => if q.1 = k then some q.2 else none) := by
        simp [List.filterMap_cons, hk]
      rw [h1, h2]

theorem coalesce_idem (x : Option String) : coalesce x x = x := by cases x <;> rfl

theorem coalesce_none_right (x : Option String) : coalesce x none = x := by cases x <;> rfl

theorem coalesce_absorb (x y : Option String) : coalesce (coalesce x y) y = coalesce x y := by
  cases x <;> cases y <;> rfl

theorem coalesce_absorb_persist {x y : Option String} (h : coalesce x y = x)
    (w : Option String) : coalesce (coalesce x w) y = coalesce x w := by
  cases x with
  | some v => rfl
  | none =>
    have hy : y = none := by simpa [coalesce] using h
    subst hy
    rw [coalesce_none, coalesce_none_right]

theorem coalesceMerge_self (c : MetaRow) : coalesceMerge c c = c := by
  cases c
  simp [coalesceMerge, coalesce_idem]

theorem coalesceMerge_absorb (r c : MetaRow) :
    coalesceMerge (coalesceMerge r c) c = coalesceMerge r c := by
  cases r; cases c
  simp [coalesceMerge, coalesce_absorb]

theorem coalesceMerge_absorb_persist {r c : MetaRow} (h : coalesceMerge r c = r)
    (d : MetaRow) : coalesceMerge (coalesceMerge r d) c = coalesceMerge r d := by
  cases r; cases c; cases d
  simp only [coalesceMerge, MetaRow.mk.injEq] at h ⊢
  obtain ⟨h1, h2, h3, h4, h5⟩ := h
  exact ⟨coalesce_absorb_persist h1 _, coalesce_absorb_persist h2 _,
    coalesce_absorb_persist h3 _, coalesce_absorb_persist h4 _, coalesce_absorb_persist h5 _⟩

/-- Folding candidates onto a row that already absorbed `c` keeps absorbing `c`. -/
def foldMerge (r : MetaRow) (cs : List MetaRow) : MetaRow := cs.foldl coalesceMerge r

theorem applyCands_some (r : MetaRow) (cs : List MetaRow) :
    applyCands (some r) cs = some (foldMerge r cs) := by
  induction cs generalizing r with
  | nil => rfl
  | cons c tl ih =>
    rw [applyCands_cons]
    exact ih (coalesceMerge r c)

theorem foldMerge_absorb {r c : MetaRow} (h : coalesceMerge r c = r) :
    ∀ tl : List MetaRow, coalesceMerge (foldMerge r tl) c = foldMerge r tl := by
  intro tl
  induction tl generalizing r with
  | nil => exact h
  | cons d ds ih => exact ih (coalesceMerge_absorb_persist h d)

theorem applyCands_idem : ∀ (cs : List MetaRow) (a : Option MetaRow),
    applyCands (applyCands a cs) cs = applyCands a cs := by
  intro cs
  induction cs with
  | nil => intro a; rfl
  | cons c tl ih =>
    intro a
    obtain ⟨s0, hs0, habs⟩ : ∃ s0, mergeOpt a c = some s0 ∧ coalesceMerge s0 c = s0 := by
      cases a with
      | none => exact ⟨c, rfl, coalesceMerge_self c⟩
      | some r => exact ⟨coalesceMerge r c, rfl, coalesceMerge_absorb r c⟩
    have hinner : applyCands a (c :: tl) = some (foldMerge s0 tl) := by
      rw [applyCands_cons, hs0, applyCands_some]
    have hm : mergeOpt (some (foldMerge s0 tl)) c = some (foldMerge s0 tl) := by
      simp only [mergeOpt]
      rw [foldMerge_absorb habs]
    have hfold : applyCands (applyCands (some s0) tl) tl = applyCands (some s0) tl := ih (some s0)
    rw [applyCands_some] at hfold
    rw [hinner, applyCands_cons, hm]
    exact hfold

theorem upsert_metadata_batch_idem (m : MetaMap) (batch : List (String × MetaRow)) :
    upsert_metadata_batch (upsert_metadata_batch m batch) batch =
      upsert_metadata_batch m batch := by
  funext k
  rw [upsert_metadata_batch_apply, upsert_metadata_batch_apply]
  exact applyCands_idem _ _

/-- The overwrite analogue for codebooks, at a single key. -/
def applyOver (a : Option CodebookData) (ds : List CodebookData) : Option CodebookData :=
  ds.foldl (fun _ d => some d) a

theorem upsert_codebook_batch_apply : ∀ (batch : List (String × CodebookData)) (m : CbMap)
    (k : String), upsert_codebook_batch m batch k =
      applyOver (m k) (batch.filterMap (fun p => if p.1 = k then some p.2 else none)) := by
  intro batch
  induction batch with
  | nil => intro m k; rfl
  | cons p tl ih =>
    intro m k
    have hstep : upsert_codebook_batch m (p :: tl) =
        upsert_codebook_batch (upsert_codebook m p.1 p.2) tl := rfl
    rw [hstep, ih]
    by_cases hk : p.1 = k
    · have h1 : upsert_codebook m p.1 p.2 k = some p.2 := by
        subst hk; simp [upsert_codebook]
      have h2 : (p :: tl).filterMap (fun q => if q.1 = k then some q.2 else none) =
          p.2 :: tl.filterMap (fun q => if q.1 = k then some q.2 else none) := by
        simp [List.filterMap_cons, hk]
      rw [h1, h2]
      rfl
    · have h1 : upsert_codebook m p.1 p.2 k = m k := by
        unfold upsert_codebook
        rw [if_neg (fun h => hk h.symm)]
      have h2 : (p :: tl).filterMap (fun q => if q.1 = k then some q.2 else none) =
          tl.filterMap (fun q => if q.1 = k then some q.2 else none) := by
        simp [List.filterMap_cons, hk]
      rw [h1, h2]

theorem applyOver_idem : ∀ (ds : List CodebookData) (a : Option CodebookData),
    applyOver (applyOver a ds) ds = applyOver a ds := by
  intro ds
  cases ds with
  | nil => intro a; rfl
  | cons d tl => intro a; rfl

theorem upsert_codebook_batch_idem (m : CbMap) (batch : List (String × CodebookData)) :
    upsert_codebook_batch (upsert_codebook_batch m batch) batch =
      upsert_codebook_batch m batch := by
  funext k
  rw [upsert_codebook_batch_apply, upsert_codebook_batch_apply]
  exact applyOver_idem _ _

/-- Replacing the same (prefix, respondent set, records) again is a no-op,
as long as every fresh record falls inside its own deletion scope. -/
theorem replace_answers_idem (ans : List AnswerRec) (pre : String) (ids : Finset String)
    (recs : List AnswerRec)
    (h : ∀ r ∈ recs, r.mb_sn ∈ ids ∧ likePrefixMatch pre r.question_id = true) :
    replace_answers (replace_answers ans pre ids recs) pre ids recs =
      replace_answers ans pre ids recs := by
  unfold replace_answers
  rw [List.filter_append]
  have h1 : ∀ l : List AnswerRec,
      (l.filter (fun r => !(decide (r.mb_sn ∈ ids) && likePrefixMatch pre r.question_id))).filter
        (fun r => !(decide (r.mb_sn ∈ ids) && likePrefixMatch pre r.question_id)) =
      l.filter (fun r => !(decide (r.mb_sn ∈ ids) && likePrefixMatch pre r.question_id)) := by
    intro l
    rw [List.filter_filter]
    simp [Bool.and_self]
  have h2 : recs.filter (fun r => !(decide (r.mb_sn ∈ ids) && likePrefixMatch pre r.question_id)) =
      [] := by
    refine List.filter_eq_nil_iff.mpr ?_
    intro r hr
    obtain ⟨hm, hl⟩ := h r hr
    simp [hm, hl]
  rw [h1, h2, List.append_nil]

/-! ## Helper lemmas: the extracted batches stay inside their own scope -/

theorem mem_w2_cell_recs {R Q : String} {c : Cell} {r : AnswerRec}
    (h : r ∈ w2_cell_recs R Q c) :
    r.mb_sn = R ∧ r.question_id = Q ∧ r.answer_value ∈ split_values (rawStrip c) := by
  simp only [w2_cell_recs] at h
  by_cases he : rawStrip c = ""
  · rw [if_pos he] at h
    exact absurd h (List.not_mem_nil _)
  · rw [if_neg he] at h
    rw [List.mem_map] at h
    obtain ⟨v, hv, rfl⟩ := h
    exact ⟨rfl, rfl, hv⟩

theorem mem_qp_cell_recs {R Q : String} {c : Cell} {r : AnswerRec}
    (h : r ∈ qp_cell_recs R Q c) :
    r.mb_sn = R ∧ r.question_id = Q ∧ r.answer_value ∈ split_values (clean_cell c) := by
  simp only [qp_cell_recs] at h
  by_cases he : clean_cell c = ""
  · rw [if_pos he] at h
    exact absurd h (List.not_mem_nil _)
  · rw [if_neg he] at h
    rw [List.mem_map] at h
    obtain ⟨v, hv, rfl⟩ := h
    exact ⟨rfl, rfl, hv⟩

/-- Every record `insert_2nd.py` extracts carries its row's respondent id
(which is in the file respondent set) and a prefixed question id. -/
theorem w2_answers_covered (pre : String) (rows : List Row) :
    ∀ r ∈ w2_answers pre rows,
      r.mb_sn ∈ w2_respondents rows ∧ ∃ t, r.question_id = pre ++ t := by
  intro r hr
  rw [w2_answers, List.mem_flatMap] at hr
  obtain ⟨row, hrow, hmem⟩ := hr
  by_cases hid : w2_row_id row = ""
  · rw [if_pos hid] at hmem
    exact absurd hmem (List.not_mem_nil _)
  · rw [if_neg hid] at hmem
    rw [w2_row_recs, List.mem_flatMap] at hmem
    obtain ⟨p, _, hmem2⟩ := hmem
    by_cases hc : p.1 = "mb_sn" ∨ p.2 = none
    · rw [if_pos hc] at hmem2
      exact absurd hmem2 (List.not_mem_nil _)
    · rw [if_neg hc] at hmem2
      obtain ⟨hmb, hqid, _⟩ := mem_w2_cell_recs hmem2
      constructor
      · rw [hmb, w2_respondents, List.mem_toFinset, List.mem_filterMap]
        exact ⟨row, hrow, by rw [if_neg hid]⟩
      · exact ⟨p.1, hqid⟩

theorem qpoll_row_recs_covered {pre : String} {qmap : List (String × String)} {mb : String}
    {row : Row} {r : AnswerRec} (h : r ∈ qpoll_row_recs pre qmap mb row) :
    r.mb_sn = mb ∧ ∃ u, r.question_id = pre ++ u := by
  rw [qpoll_row_recs, List.mem_flatMap] at h
  obtain ⟨p, _, hmem⟩ := h
  by_cases h1 : ID_CANDIDATES.contains p.1 ∨ METADATA_COLUMNS.contains p.1 ∨
      COLUMNS_TO_IGNORE.contains p.1
  · rw [if_pos h1] at hmem
    exact absurd hmem (List.not_mem_nil _)
  · rw [if_neg h1] at hmem
    cases hq : dictGet qmap p.1 with
    | none =>
      simp only [hq] at hmem
      exact absurd hmem (List.not_mem_nil _)
    | some t =>
      simp only [hq] at hmem
      by_cases ht : t = ""
      · rw [if_pos ht] at hmem
        exact absurd hmem (List.not_mem_nil _)
      · rw [if_neg ht] at hmem
        obtain ⟨hmb, hqid, _⟩ := mem_qp_cell_recs hmem
        exact ⟨hmb, t, hqid⟩

/-- Fold invariant for the qpoll data loop: every accumulated record's
respondent is among the accumulated ids, and its question id LIKE-matches
the file prefix. -/
theorem qpoll_fold_covered (idcol pre : String) (qmap : List (String × String)) :
    ∀ (rows : List Row) (acc : QAcc),
      (∀ r ∈ acc.2.2, r.mb_sn ∈ acc.1 ∧ likePrefixMatch pre r.question_id = true) →
      ∀ r ∈ (rows.foldl (qpoll_step idcol pre qmap) acc).2.2,
        r.mb_sn ∈ (rows.foldl (qpoll_step idcol pre qmap) acc).1 ∧
          likePrefixMatch pre r.question_id = true := by
  intro rows
  induction rows with
  | nil => intro acc h; exact h
  | cons row tl ih =>
    intro acc h
    rw [List.foldl_cons]
    refine ih _ ?_
    intro r hr
    unfold qpoll_step at hr ⊢
    by_cases hmb : clean_cell (rowGet row idcol) = ""
    · rw [if_pos hmb] at hr ⊢
      exact h r hr
    · rw [if_neg hmb] at hr ⊢
      rcases List.mem_append.mp hr with h1 | h2
      · obtain ⟨ha, hb⟩ := h r h1
        exact ⟨Finset.mem_insert_of_mem ha, hb⟩
      · obtain ⟨hmb', u, hu⟩ := qpoll_row_recs_covered h2
        exact ⟨by rw [hmb']; exact Finset.mem_insert_self _ _,
          by rw [hu]; exact likePrefixMatch_append_self _ _⟩

/-- C3 (confirmed).  Re-running any one source's full ingestion immediately
after itself leaves the four collections exactly as a single run does:
Welcome-1st (respondents + metadata), Welcome-2nd (codebook + data, i.e.
respondents, codebooks, answers) and qpoll (codebook + data, i.e. all four
collections) are each idempotent on every prior store state. -/
theorem C3_reingest_idempotent :
    (∀ (y : Int) (cols : List String) (rows : List Row) (s : Store),
      w1_run y cols rows (w1_run y cols rows s) = w1_run y cols rows s) ∧
    (∀ (pre : String) (cbRows : List (Cell × Cell × Cell)) (cols : List String)
        (rows : List Row) (s : Store),
      w2_run pre cbRows cols rows (w2_run pre cbRows cols rows s) =
        w2_run pre cbRows cols rows s) ∧
    (∀ (pre : String) (cbRows : List Row) (titleRow : List Cell)
        (panelColsRaw : List String) (dataCells : List (List Cell)) (s : Store),
      qpoll_run pre cbRows titleRow panelColsRaw dataCells
          (qpoll_run pre cbRows titleRow panelColsRaw dataCells s) =
        qpoll_run pre cbRows titleRow panelColsRaw dataCells s) := by
  refine ⟨?_, ?_, ?_⟩
  · intro y cols rows s
    unfold w1_run
    cases hres : resolveIdCol cols with
    | none => rfl
    | some idcol =>
      refine Store.ext ?_ ?_ rfl rfl
      · exact union_union_self _ _
      · exact upsert_metadata_batch_idem _ _
  · intro pre cbRows cols rows s
    unfold w2_run w2_data_run w2_codebook_run
    by_cases hc : cols.contains "mb_sn" = true
    · simp only [if_pos hc]
      refine Store.ext ?_ rfl ?_ ?_
      · exact union_union_self _ _
      · exact upsert_codebook_batch_idem _ _
      · refine replace_answers_idem _ _ _ _ ?_
        intro r hr
        obtain ⟨ha, t, ht⟩ := w2_answers_covered pre rows r hr
        exact ⟨ha, by rw [ht]; exact likePrefixMatch_append_self _ _⟩
    · simp only [if_neg hc]
      refine Store.ext rfl rfl ?_ rfl
      exact upsert_codebook_batch_idem _ _
  · intro pre cbRows titleRow panelColsRaw dataCells s
    unfold qpoll_run qpoll_data_run qpoll_codebook_run
    cases hres : List.find? (fun c => (List.map pyStrip panelColsRaw).contains c) ID_CANDIDATES with
    | none =>
      simp only [hres]
      refine Store.ext rfl rfl ?_ rfl
      exact upsert_codebook_batch_idem _ _
    | some idcol =>
      simp only [hres]
      refine Store.ext ?_ ?_ ?_ ?_
      · exact union_union_self _ _
      · exact upsert_metadata_batch_idem _ _
      · exact upsert_codebook_batch_idem _ _
      · refine replace_answers_idem _ _ _ _ ?_
        exact qpoll_fold_covered idcol pre _ _ _ (fun r hr => absurd hr (List.not_mem_nil _))

/-! ## Helper lemmas: the vertical codebook parser -/

theorem cbEmit_map_id (pre : String) (st : CbState) :
    (cbEmit pre st).map (fun o => o.codebook_id) =
      st.objs.map (fun o => o.codebook_id) ++
        (match st.curId with
         | some q => [pre ++ q]
         | none => []) := by
  cases st with
  | mk objs cur title ans => cases cur <;> simp [cbEmit]

/-- The emitted question ids are the prefixed codes of the question-start
rows (first cell non-`NaN`, non-blank), in file order, whatever state the
parser starts in. -/
theorem parse_ids_aux (pre : String) : ∀ (rows : List (Cell × Cell × Cell)) (st : CbState),
    (cbEmit pre (rows.foldl (cbStep pre) st)).map (fun o => o.codebook_id) =
      (cbEmit pre st).map (fun o => o.codebook_id) ++
        (rows.filter (fun r => decide (r.1 ≠ none ∧ rawStrip r.1 ≠ ""))).map
          (fun r => pre ++ rawStrip r.1) := by
  intro rows
  induction rows with
  | nil => intro st; simp
  | cons row tl ih =>
    intro st
    rw [List.foldl_cons, ih (cbStep pre st row)]
    by_cases hq : row.1 ≠ none ∧ rawStrip row.1 ≠ ""
    · have hstep : cbStep pre st row =
          ⟨cbEmit pre st, some (rawStrip row.1), rawStrip row.2.1, []⟩ := by
        unfold cbStep
        rw [if_pos hq]
      rw [hstep, cbEmit_map_id]
      have hd : (decide (row.1 ≠ none ∧ rawStrip row.1 ≠ "") : Bool) = true := decide_eq_true hq
      rw [List.filter_cons, if_pos hd]
      simp [List.append_assoc]
    · have hids : (cbEmit pre (cbStep pre st row)).map (fun o => o.codebook_id) =
          (cbEmit pre st).map (fun o => o.codebook_id) := by
        unfold cbStep
        rw [if_neg hq]
        by_cases h2 : row.2.1 ≠ none ∧ row.2.2 ≠ none
        · rw [if_pos h2]
          by_cases h3 : pyIsDigit (rawStrip row.2.1) = true ∧
              ¬ TYPE_MARKERS.contains (rawStrip row.2.2) = true
          · rw [if_pos h3, cbEmit_map_id, cbEmit_map_id]
          · rw [if_neg h3]
        · rw [if_neg h2]
      rw [hids]
      have hd : (decide (row.1 ≠ none ∧ rawStrip row.1 ≠ "") : Bool) = false := decide_eq_false hq
      rw [List.filter_cons, hd]
      simp

/-- C4 counterexample.  In `process_codebook_etl` of `insert_2nd.py`, the
question-start test is merely "column 1 non-`NaN` and non-blank": the row
`("1", "2", "lbl")` — whose code column is the digit string `"1"`, matching
no letter-prefix pattern — closes the open question `Q1` and opens (and at
end of input emits) a new question with stored id `"w2_1"`, instead of
being rejected by a fixed-prefix pattern test.  This refutes "a row opens a
new question ONLY when its code column matches a fixed prefix pattern". -/
theorem C4_nonblank_code_counterexample :
    parseVertical "w2_" [(some "Q1", some "T", some "SINGLE"), (some "1", some "2", some "lbl")] =
      [⟨"w2_Q1", "T", []⟩, ⟨"w2_1", "2", []⟩] ∧
    pyIsDigit "1" = true := by decide

/-- C4 (corrected).  What the vertical parser actually does: (a) over any
input, a row opens a new question exactly when its code column is
non-`NaN` and non-blank after trimming (no prefix-pattern test); one
question is emitted per such row, in order, under the prefixed trimmed
code — a question-start row closes and emits the previously open question
and end of input closes and emits the last one; (b) concretely, blank-code
rows whose cells 2 and 3 are non-`NaN`, with an all-digit cell 2 and a
non-type-marker cell 3, are appended as choice rows to the currently open
question. -/
theorem C4_vertical_parser_amended :
    (∀ (pre : String) (rows : List (Cell × Cell × Cell)),
      (parseVertical pre rows).map (fun o => o.codebook_id) =
        (rows.filter (fun r => decide (r.1 ≠ none ∧ rawStrip r.1 ≠ ""))).map
          (fun r => pre ++ rawStrip r.1)) ∧
    parseVertical "w2_"
        [(some "Q1", some "결혼여부", some "SINGLE"),
         (none, some "1", some "미혼"),
         (none, some "2", some "기혼"),
         (some "Q2", some "성별", some "SINGLE"),
         (none, some "1", some "남성")] =
      [⟨"w2_Q1", "결혼여부", [("1", "미혼"), ("2", "기혼")]⟩,
       ⟨"w2_Q2", "성별", [("1", "남성")]⟩] := by
  constructor
  · intro pre rows
    unfold parseVertical
    rw [parse_ids_aux]
    simp [cbEmit]
  · decide

/-! ## C5: where the id-skip decision is taken -/

/-- C5 (code bug).  The claim — skip on the CLEANED id, so a missing-marker
cell never enters storage — matches `clean_cell` of `insert_qpoll.py`
(whose docstring says it was added precisely to stop `NaN`/`'nan'` ids from
reaching the DB), but `insert_1st.py` and `insert_2nd.py` still test the
raw `str(cell).strip()`: a `NaN` id cell stringifies to the literal
`"nan"`, the row is NOT skipped, and `"nan"` enters the respondent set.
Evaluated at the failing input — a data row whose id cell is `NaN`: the
welcome-2nd extractor stores respondent `"nan"`, the welcome-1st row id is
likewise `"nan"`, while `clean_cell` maps the same cell to `''` (which is
skipped). -/
theorem C5_raw_id_check_leaks_nan :
    w2_respondents [[("mb_sn", (none : Cell)), ("Q1", some "1")]] = {"nan"} ∧
    w2_row_id [("mb_sn", (none : Cell)), ("Q1", some "1")] = "nan" ∧
    w1_row_id "mb_sn" [("mb_sn", (none : Cell))] = "nan" ∧
    clean_cell (none : Cell) = "" := by decide

/-! ## Helper lemmas: forward fill -/

/-- The nearest preceding valid title in a cell prefix (the spec-side
reading of forward-fill): the cleaned value of the LAST non-`NaN`,
non-placeholder cell, or `''` when there is none. -/
def lastValidTitle (cells : List Cell) : String :=
  match (cells.filter validTitle).getLast? with
  | some c => cleanTitle (cellStr c)
  | none => ""

theorem forwardFillFrom_length (cells : List Cell) : ∀ last : String,
    (forwardFillFrom last cells).length = cells.length := by
  induction cells with
  | nil => intro last; rfl
  | cons c cs ih => intro last; simp [forwardFillFrom, ih]

theorem forwardFillFrom_get : ∀ (cells : List Cell) (last : String) (i : Nat)
    (h : i < (forwardFillFrom last cells).length),
    (forwardFillFrom last cells).get ⟨i, h⟩ =
      match ((cells.take (i + 1)).filter validTitle).getLast? with
      | some c => cleanTitle (cellStr c)
      | none => last := by
  intro cells
  induction cells with
  | nil => intro last i h; simp [forwardFillFrom] at h
  | cons c cs ih =>
    intro last i h
    cases i with
    | zero =>
      simp only [forwardFillFrom, List.get, List.take_succ_cons, List.take_zero,
        List.filter_cons]
      by_cases hv : validTitle c = true
      · rw [if_pos hv, if_pos hv]
        rfl
      · rw [if_neg hv, if_neg hv]
        rfl
    | succ j =>
      have hlt : j < (forwardFillFrom (if validTitle c then cleanTitle (cellStr c) else last)
          cs).length := by
        simpa [forwardFillFrom] using Nat.lt_of_succ_lt_succ h
      have hstep : (forwardFillFrom last (c :: cs)).get ⟨j + 1, h⟩ =
          (forwardFillFrom (if validTitle c then cleanTitle (cellStr c) else last) cs).get
            ⟨j, hlt⟩ := rfl
      rw [hstep, ih]
      rw [List.take_succ_cons, List.filter_cons]
      by_cases hv : validTitle c = true
      · rw [if_pos hv, if_pos hv, List.getLast?_cons]
        cases hF : ((cs.take (j + 1)).filter validTitle).getLast? with
        | none => simp [hF]
        | some d => simp [hF]
      · rw [if_neg hv, if_neg hv]

/-- C6 (confirmed).  The resolved title of column `i` is the cleaned value
of the nearest preceding non-blank (non-`NaN`), non-placeholder
(`Unnamed…`) title cell of the first header row — `''` when no such cell
precedes — and the concrete merged-header row `["Q1", ∅, ∅, "Q2", ∅]`
resolves to `["Q1","Q1","Q1","Q2","Q2"]`.  `forwardFill` is a pure
function of the header row alone. -/
theorem C6_forward_fill :
    (∀ (cells : List Cell) (i : Nat) (h : i < (forwardFill cells).length),
      (forwardFill cells).get ⟨i, h⟩ = lastValidTitle (cells.take (i + 1))) ∧
    forwardFill [some "Q1", none, none, some "Q2", none] = ["Q1", "Q1", "Q1", "Q2", "Q2"] := by
  constructor
  · intro cells i h
    unfold forwardFill at h ⊢
    unfold lastValidTitle
    exact forwardFillFrom_get cells "" i h
  · decide

/-- Witness for C6: the general forward-fill characterization evaluated at
the spec's own example, column 3. -/
theorem C6_forward_fill_witness :
    (forwardFill [some "Q1", none, none, some "Q2", none]).get ⟨3, by decide⟩ =
      lastValidTitle ([some "Q1", none, none, some "Q2", none].take 4) ∧
    lastValidTitle ([some "Q1", none, none, some "Q2", none].take 4) = "Q2" :=
  ⟨C6_forward_fill.1 [some "Q1", none, none, some "Q2", none] 3 (by decide), by decide⟩

/-! ## Helper lemmas: Python strip/split -/

theorem dropWhile_head_false {α : Type} {p : α → Bool} :
    ∀ {l : List α} {c : α} {cs : List α}, l.dropWhile p = c :: cs → p c = false := by
  intro l
  induction l with
  | nil => intro c cs h; cases h
  | cons a tl ih =>
    intro c cs h
    rw [List.dropWhile_cons] at h
    by_cases hp : p a = true
    · rw [if_pos hp] at h
      exact ih h
    · rw [if_neg hp] at h
      cases h
      exact Bool.of_not_eq_true hp

theorem dropWhile_dropWhile {α : Type} {p : α → Bool} (l : List α) :
    (l.dropWhile p).dropWhile p = l.dropWhile p := by
  cases hf : l.dropWhile p with
  | nil => rfl
  | cons c cs =>
    rw [List.dropWhile_cons, if_neg]
    rw [dropWhile_head_false hf]
    simp

theorem dropWhile_fixed_of_eq {α : Type} {p : α → Bool} {x : List α} (hx : x.dropWhile p = x) :
    ∀ {y : List α}, y <+: x → y.dropWhile p = y := by
  intro y hy
  cases y with
  | nil => rfl
  | cons c cs =>
    obtain ⟨t, ht⟩ := hy
    have hx' : x = c :: (cs ++ t) := by rw [← ht]; rfl
    have hc : p c = false := by
      by_contra hc
      have hc' : p c = true := Bool.of_not_eq_false hc
      have h1 : x.dropWhile p = (cs ++ t).dropWhile p := by
        rw [hx', List.dropWhile_cons, if_pos hc']
      have h2 : ((cs ++ t).dropWhile p).length ≤ (cs ++ t).length :=
        (List.dropWhile_suffix p).length_le
      rw [← h1, hx] at h2
      simp [hx'] at h2
    rw [List.dropWhile_cons, hc]
    simp

theorem stripList_idem (l : List Char) :
    ((((l.dropWhile Char.isWhitespace).reverse.dropWhile Char.isWhitespace).reverse.dropWhile
        Char.isWhitespace).reverse.dropWhile Char.isWhitespace).reverse =
      ((l.dropWhile Char.isWhitespace).reverse.dropWhile Char.isWhitespace).reverse := by
  have ha : (l.dropWhile Char.isWhitespace).dropWhile Char.isWhitespace =
      l.dropWhile Char.isWhitespace := dropWhile_dropWhile l
  have hpre : ((l.dropWhile Char.isWhitespace).reverse.dropWhile Char.isWhitespace).reverse <+:
      l.dropWhile Char.isWhitespace := by
    conv_rhs => rw [← List.reverse_reverse (l.dropWhile Char.isWhitespace)]
    exact List.reverse_prefix.mpr (List.dropWhile_suffix _)
  have hx : ((l.dropWhile Char.isWhitespace).reverse.dropWhile
      Char.isWhitespace).reverse.dropWhile Char.isWhitespace =
      ((l.dropWhile Char.isWhitespace).reverse.dropWhile Char.isWhitespace).reverse :=
    dropWhile_fixed_of_eq ha hpre
  rw [hx, List.reverse_reverse, dropWhile_dropWhile]

/-- `s.strip()` is idempotent. -/
theorem pyStrip_idem (s : String) : pyStrip (pyStrip s) = pyStrip s :=
  congrArg String.mk (stripList_idem s.data)

theorem pyStrip_ws_empty {s : String} (h : s.data.all Char.isWhitespace = true) :
    pyStrip s = "" := by
  unfold pyStrip
  have h1 : s.data.dropWhile Char.isWhitespace = [] :=
    List.dropWhile_eq_nil_iff.mpr (fun x hx => List.all_eq_true.mp h x hx)
  rw [h1]
  rfl

theorem mem_split_values {v a : String} (h : v ∈ split_values a) :
    v ≠ "" ∧ pyStrip v = v := by
  unfold split_values at h
  rw [List.mem_filter] at h
  obtain ⟨hmem, hne⟩ := h
  rw [List.mem_map] at hmem
  obtain ⟨l, _, rfl⟩ := hmem
  refine ⟨by simpa using hne, pyStrip_idem _⟩

/-- C7 (confirmed).  In both `insert_2nd.py` and `insert_qpoll.py`: the raw
value `"1, 3, 4"` for (respondent R, question Q) yields exactly the three
records `(R,Q,"1")`, `(R,Q,"3")`, `(R,Q,"4")`; an empty or whitespace-only
raw value yields zero records; and every produced record carries R, Q and a
trimmed, non-blank token. -/
theorem C7_multi_value_split :
    (∀ R Q : String,
      w2_cell_recs R Q (some "1, 3, 4") = [⟨R, Q, "1"⟩, ⟨R, Q, "3"⟩, ⟨R, Q, "4"⟩] ∧
      qp_cell_recs R Q (some "1, 3, 4") = [⟨R, Q, "1"⟩, ⟨R, Q, "3"⟩, ⟨R, Q, "4"⟩]) ∧
    (∀ R Q s : String, s.data.all Char.isWhitespace = true →
      w2_cell_recs R Q (some s) = [] ∧ qp_cell_recs R Q (some s) = []) ∧
    (∀ (R Q : String) (c : Cell) (r : AnswerRec),
      r ∈ w2_cell_recs R Q c ∨ r ∈ qp_cell_recs R Q c →
      r.mb_sn = R ∧ r.question_id = Q ∧ r.answer_value ≠ "" ∧
        pyStrip r.answer_value = r.answer_value) := by
  refine ⟨?_, ?_, ?_⟩
  · intro R Q
    constructor
    · have h1 : rawStrip (some "1, 3, 4") = "1, 3, 4" := by decide
      simp only [w2_cell_recs, h1]
      rw [if_neg (by decide : ¬("1, 3, 4" : String) = "")]
      rw [show split_values "1, 3, 4" = ["1", "3", "4"] from by decide]
      rfl
    · have h1 : clean_cell (some "1, 3, 4") = "1, 3, 4" := by decide
      simp only [qp_cell_recs, h1]
      rw [if_neg (by decide : ¬("1, 3, 4" : String) = "")]
      rw [show split_values "1, 3, 4" = ["1", "3", "4"] from by decide]
      rfl
  · intro R Q s hws
    have hstrip : pyStrip s = "" := pyStrip_ws_empty hws
    have hclean : clean_cell (some s) = "" := by
      simp [clean_cell, hstrip]
    constructor
    · simp only [w2_cell_recs, rawStrip, cellStr, hstrip]
      simp
    · simp only [qp_cell_recs, hclean]
      simp
  · intro R Q c r hr
    rcases hr with hr | hr
    · obtain ⟨h1, h2, h3⟩ := mem_w2_cell_recs hr
      obtain ⟨h4, h5⟩ := mem_split_values h3
      exact ⟨h1, h2, h4, h5⟩
    · obtain ⟨h1, h2, h3⟩ := mem_qp_cell_recs hr
      obtain ⟨h4, h5⟩ := mem_split_values h3
      exact ⟨h1, h2, h4, h5⟩

/-- Witness for C7: the whitespace-only and membership conjuncts evaluated
at concrete cells. -/
theorem C7_multi_value_split_witness :
    (w2_cell_recs "R" "w2_Q1" (some "  ") = [] ∧ qp_cell_recs "R" "w2_Q1" (some "  ") = []) ∧
    ((⟨"R", "w2_Q1", "1"⟩ : AnswerRec).mb_sn = "R" ∧
      (⟨"R", "w2_Q1", "1"⟩ : AnswerRec).question_id = "w2_Q1" ∧
      (⟨"R", "w2_Q1", "1"⟩ : AnswerRec).answer_value ≠ "" ∧
      pyStrip (⟨"R", "w2_Q1", "1"⟩ : AnswerRec).answer_value =
        (⟨"R", "w2_Q1", "1"⟩ : AnswerRec).answer_value) :=
  ⟨C7_multi_value_split.2.1 "R" "w2_Q1" "  " (by decide),
   C7_multi_value_split.2.2 "R" "w2_Q1" (some "1, 3, 4") ⟨"R", "w2_Q1", "1"⟩
     (Or.inl (by decide))⟩

/-! ## Helper lemmas: namespace prefixes -/

theorem w2_append_data (q : String) : (W2_PREFIX ++ q).data = 'w' :: '2' :: '_' :: q.data := by
  have h3 : ("w2_" : String).data = ['w', '2', '_'] := rfl
  simp [W2_PREFIX, String.data_append, h3]

theorem qp_append_data (b q : String) :
    (qpollFilePrefix b ++ q).data = 'q' :: 'p' :: (b.data ++ '_' :: q.data) := by
  have h1 : ("qp" : String).data = ['q', 'p'] := rfl
  have h2 : ("_" : String).data = ['_'] := rfl
  simp [qpollFilePrefix, String.data_append, h1, h2]

/-- The vertical parser only emits ids of the form `pre ++ code`. -/
theorem parseVertical_prefixed (pre : String) (rows : List (Cell × Cell × Cell)) :
    ∀ o ∈ parseVertical pre rows, pyStartsWith pre o.codebook_id = true := by
  intro o ho
  have hids := parse_ids_aux pre rows ⟨[], none, "", []⟩
  have hmem : o.codebook_id ∈ (cbEmit pre (rows.foldl (cbStep pre) ⟨[], none, "", []⟩)).map
      (fun o => o.codebook_id) := List.mem_map_of_mem _ ho
  rw [hids] at hmem
  simp only [cbEmit, List.map_nil, List.nil_append] at hmem
  rw [List.mem_map] at hmem
  obtain ⟨r, _, hr⟩ := hmem
  rw [← hr]
  exact pyStartsWith_append_self _ _

/-- A Python-dict upsert keeps every key satisfying a predicate, when the
inserted key does. -/
theorem dictUpsertCb_pred (P : String → Prop) {d : List (String × CodebookData)}
    {k : String} {v : CodebookData} (hd : ∀ p ∈ d, P p.1) (hk : P k) :
    ∀ p ∈ dictUpsertCb d k v, P p.1 := by
  intro p hp
  unfold dictUpsertCb at hp
  by_cases hex : d.any (fun p => p.1 = k) = true
  · rw [if_pos hex] at hp
    rw [List.mem_map] at hp
    obtain ⟨p0, hp0, hmap⟩ := hp
    by_cases heq : p0.1 = k
    · rw [if_pos heq] at hmap
      rw [← hmap]
      exact hk
    · rw [if_neg heq] at hmap
      rw [← hmap]
      exact hd p0 hp0
  · rw [if_neg hex] at hp
    rcases List.mem_append.mp hp with h1 | h2
    · exact hd p h1
    · rw [List.mem_singleton.mp h2]
      exact hk

theorem w2_codebook_batch_prefixed (pre : String) (rows : List (Cell × Cell × Cell)) :
    ∀ p ∈ w2_codebook_batch pre rows, pyStartsWith pre p.1 = true := by
  unfold w2_codebook_batch
  generalize hsrc : (parseVertical pre rows).filterMap (fun o =>
    if o.codebook_id = pre ++ "mb_sn" then none else some (o.codebook_id, o)) = src
  have hall : ∀ p ∈ src, pyStartsWith pre p.1 = true := by
    intro p hp
    rw [← hsrc, List.mem_filterMap] at hp
    obtain ⟨o, ho, hmap⟩ := hp
    by_cases hskip : o.codebook_id = pre ++ "mb_sn"
    · rw [if_pos hskip] at hmap
      cases hmap
    · rw [if_neg hskip] at hmap
      cases hmap
      exact parseVertical_prefixed pre rows o ho
  clear hsrc
  induction src using List.reverseRecOn with
  | nil => intro p hp; exact absurd hp (List.not_mem_nil _)
  | append_singleton tl q ih =>
    rw [List.foldl_append, List.foldl_cons, List.foldl_nil]
    refine dictUpsertCb_pred (fun k => pyStartsWith pre k = true) ?_ ?_
    · exact ih (fun p hp => hall p (List.mem_append_left _ hp))
    · exact hall q (List.mem_append_right _ (List.mem_singleton_self _))

theorem qpoll_cb_dict_prefixed (pre : String) (rows : List Row) :
    ∀ p ∈ qpoll_cb_dict pre rows, pyStartsWith pre p.1 = true := by
  unfold qpoll_cb_dict
  induction rows using List.reverseRecOn with
  | nil => intro p hp; exact absurd hp (List.not_mem_nil _)
  | append_singleton tl row ih =>
    rw [List.foldl_append, List.foldl_cons, List.foldl_nil]
    cases hrow : qpCb_row_entry pre row with
    | none => simpa [hrow] using ih
    | some kv =>
      obtain ⟨k, v⟩ := kv
      simp only [hrow]
      refine dictUpsertCb_pred (fun k => pyStartsWith pre k = true) ih ?_
      have : ∃ u, k = pre ++ u := by
        unfold qpCb_row_entry at hrow
        by_cases h1 : rawStrip (rowGetD row "설문제목") = ""
        · rw [if_pos h1] at hrow
          cases hrow
        · rw [if_neg h1] at hrow
          by_cases h2 : METADATA_COLUMNS.contains (rawStrip (rowGetD row "설문제목")) = true ∨
              ID_CANDIDATES.contains (rawStrip (rowGetD row "설문제목")) = true
          · rw [if_pos h2] at hrow
            cases hrow
          · rw [if_neg h2] at hrow
            cases hrow
            exact ⟨_, rfl⟩
      obtain ⟨u, hu⟩ := this
      rw [hu]
      exact pyStartsWith_append_self _ _

theorem qpoll_fold_recs_prefixed (idcol pre : String) (qmap : List (String × String)) :
    ∀ (rows : List Row) (acc : QAcc),
      (∀ r ∈ acc.2.2, pyStartsWith pre r.question_id = true) →
      ∀ r ∈ (rows.foldl (qpoll_step idcol pre qmap) acc).2.2,
        pyStartsWith pre r.question_id = true := by
  intro rows
  induction rows with
  | nil => intro acc h; exact h
  | cons row tl ih =>
    intro acc h
    rw [List.foldl_cons]
    refine ih _ ?_
    intro r hr
    unfold qpoll_step at hr
    by_cases hmb : clean_cell (rowGet row idcol) = ""
    · rw [if_pos hmb] at hr
      exact h r hr
    · rw [if_neg hmb] at hr
      rcases List.mem_append.mp hr with h1 | h2
      · exact h r h1
      · obtain ⟨_, u, hu⟩ := qpoll_row_recs_covered h2
        rw [hu]
        exact pyStartsWith_append_self _ _

/-- The respondent set the qpoll loop accumulates is exactly the cleaned,
UN-prefixed id cells of the rows. -/
theorem qpoll_fold_fst (idcol pre : String) (qmap : List (String × String)) :
    ∀ (rows : List Row) (acc : QAcc),
      (rows.foldl (qpoll_step idcol pre qmap) acc).1 =
        acc.1 ∪ (rows.filterMap (fun row =>
          if clean_cell (rowGet row idcol) = "" then none
          else some (clean_cell (rowGet row idcol)))).toFinset := by
  intro rows
  induction rows with
  | nil => intro acc; simp
  | cons row tl ih =>
    intro acc
    rw [List.foldl_cons, ih]
    by_cases hmb : clean_cell (rowGet row idcol) = ""
    · have hstep : qpoll_step idcol pre qmap acc row = acc := by
        unfold qpoll_step
        rw [if_pos hmb]
      rw [hstep]
      congr 1
      rw [List.filterMap_cons]
      simp [hmb]
    · have hstep : (qpoll_step idcol pre qmap acc row).1 =
          insert (clean_cell (rowGet row idcol)) acc.1 := by
        unfold qpoll_step
        rw [if_neg hmb]
      rw [hstep, List.filterMap_cons, if_neg hmb, List.toFinset_cons,
        Finset.union_insert, Finset.insert_union]

/-- C8 (confirmed).  (a,b) every codebook id either source stores starts
with that source's prefix; (c,d) so does every answer question id; (e,f)
the prefixed ids of two different sources never collide on the same raw
code: `'w2_' ++ q ≠ 'qp<b>_' ++ q`, and two qpoll files with different
name-derived bases never collide either; (g,h) respondent ids are stored
WITHOUT a prefix — the extracted respondent set is exactly the set of
cleaned id cells, independent of the source prefix — so the same person's
id compares equal whichever source introduces it. -/
theorem C8_namespace_prefixing :
    (∀ (pre : String) (rows : List (Cell × Cell × Cell)) (p : String × CodebookData),
      p ∈ w2_codebook_batch pre rows → pyStartsWith pre p.1 = true) ∧
    (∀ (pre : String) (rows : List Row) (p : String × CodebookData),
      p ∈ qpoll_cb_dict pre rows → pyStartsWith pre p.1 = true) ∧
    (∀ (pre : String) (rows : List Row) (r : AnswerRec),
      r ∈ w2_answers pre rows → pyStartsWith pre r.question_id = true) ∧
    (∀ (idcol pre : String) (qmap : List (String × String)) (rows : List Row) (r : AnswerRec),
      r ∈ (qpoll_fold idcol pre qmap rows).2.2 → pyStartsWith pre r.question_id = true) ∧
    (∀ q b : String, W2_PREFIX ++ q ≠ qpollFilePrefix b ++ q) ∧
    (∀ q b1 b2 : String, b1 ≠ b2 → qpollFilePrefix b1 ++ q ≠ qpollFilePrefix b2 ++ q) ∧
    (∀ (rows : List Row) (id : String),
      id ∈ w2_respondents rows ↔ ∃ row ∈ rows, w2_row_id row = id ∧ id ≠ "") ∧
    (∀ (idcol pre : String) (qmap : List (String × String)) (rows : List Row) (id : String),
      id ∈ (qpoll_fold idcol pre qmap rows).1 ↔
        ∃ row ∈ rows, clean_cell (rowGet row idcol) = id ∧ id ≠ "") := by
  refine ⟨w2_codebook_batch_prefixed, qpoll_cb_dict_prefixed, ?_, ?_, ?_, ?_, ?_, ?_⟩
  · intro pre rows r hr
    obtain ⟨_, t, ht⟩ := w2_answers_covered pre rows r hr
    rw [ht]
    exact pyStartsWith_append_self _ _
  · intro idcol pre qmap rows r hr
    exact qpoll_fold_recs_prefixed idcol pre qmap rows (∅, [], [])
      (fun r hr => absurd hr (List.not_mem_nil _)) r hr
  · intro q b h
    have hdata := congrArg String.data h
    rw [w2_append_data, qp_append_data] at hdata
    injection hdata with h1 _
    exact absurd h1 (by decide)
  · intro q b1 b2 hne h
    have hdata := congrArg String.data h
    rw [qp_append_data, qp_append_data] at hdata
    injection hdata with h1 hdata
    injection hdata with h2 hdata
    exact hne (String.ext (List.append_cancel_right hdata))
  · intro rows id
    rw [w2_respondents, List.mem_toFinset, List.mem_filterMap]
    constructor
    · rintro ⟨row, hrow, hsome⟩
      by_cases hid : w2_row_id row = ""
      · rw [if_pos hid] at hsome
        cases hsome
      · rw [if_neg hid] at hsome
        injection hsome with hsome
        exact ⟨row, hrow, hsome, by rw [← hsome]; exact hid⟩
    · rintro ⟨row, hrow, hid, hne⟩
      refine ⟨row, hrow, ?_⟩
      rw [if_neg (by rw [hid]; exact hne), hid]
  · intro idcol pre qmap rows id
    unfold qpoll_fold
    rw [qpoll_fold_fst]
    rw [Finset.mem_union, List.mem_toFinset, List.mem_filterMap]
    constructor
    · rintro (hemp | ⟨row, hrow, hsome⟩)
      · exact absurd hemp (Finset.not_mem_empty _)
      · by_cases hid : clean_cell (rowGet row idcol) = ""
        · rw [if_pos hid] at hsome
          cases hsome
        · rw [if_neg hid] at hsome
          injection hsome with hsome
          exact ⟨row, hrow, hsome, by rw [← hsome]; exact hid⟩
    · rintro ⟨row, hrow, hid, hne⟩
      refine Or.inr ⟨row, hrow, ?_⟩
      rw [if_neg (by rw [hid]; exact hne), hid]

/-- Witness for C8: evaluated on one concrete welcome-2nd codebook row, one
concrete stored answer, and the concrete no-collision instance for raw
code `"Q1"` against the qpoll file base `"250106"`. -/
theorem C8_namespace_prefixing_witness :
    pyStartsWith "w2_" ("w2_Q1", (⟨"w2_Q1", "T", []⟩ : CodebookData)).1 = true ∧
    W2_PREFIX ++ "Q1" ≠ qpollFilePrefix "250106" ++ "Q1" ∧
    ("R" ∈ w2_respondents [[("mb_sn", some "R"), ("Q1", some "1")]] ↔
      ∃ row ∈ [[("mb_sn", (some "R" : Cell)), ("Q1", (some "1" : Cell))]],
        w2_row_id row = "R" ∧ "R" ≠ "") := by
  refine ⟨?_, C8_namespace_prefixing.2.2.2.2.1 "Q1" "250106", ?_⟩
  · exact C8_namespace_prefixing.1 "w2_" [(some "Q1", some "T", some "SINGLE")]
      ("w2_Q1", ⟨"w2_Q1", "T", []⟩) (by decide)
  · exact C8_namespace_prefixing.2.2.2.2.2.2.1 [[("mb_sn", some "R"), ("Q1", some "1")]] "R"

/-! ## C9: ingestion never deletes respondents -/

/-- The ingestion operations of the repository, as store transformers: the
Welcome-1st run, the Welcome-2nd codebook and data passes, and the qpoll
codebook and data passes (`insert_all.py` sequences these).  The separate
`drop_table.py` is an interactive reset utility, not part of ingestion. -/
inductive IngestOp where
  | w1op (year : Int) (cols : List String) (rows : List Row)
  | w2cbop (pre : String) (rows : List (Cell × Cell × Cell))
  | w2dataop (pre : String) (cols : List String) (rows : List Row)
  | qpcbop (pre : String) (rows : List Row)
  | qpdataop (pre : String) (titleRow : List Cell) (panelColsRaw : List String)
      (dataCells : List (List Cell))

/-- Run one ingestion operation against the store. -/
def IngestOp.apply : IngestOp → Store → Store
  | .w1op y cols rows, s => w1_run y cols rows s
  | .w2cbop pre rows, s => w2_codebook_run pre rows s
  | .w2dataop pre cols rows, s => w2_data_run pre cols rows s
  | .qpcbop pre rows, s => qpoll_codebook_run pre rows s
  | .qpdataop pre t p d, s => qpoll_data_run pre t p d s

/-- Every single ingestion step only unions ids into the respondent set. -/
theorem ingest_respondents_union (op : IngestOp) (s : Store) :
    ∃ ids : Finset String, (op.apply s).respondents = s.respondents ∪ ids := by
  cases op with
  | w1op y cols rows =>
    show ∃ ids, (w1_run y cols rows s).respondents = s.respondents ∪ ids
    unfold w1_run
    cases hres : resolveIdCol cols with
    | none =>
      simp only [hres]
      exact ⟨∅, (Finset.union_empty _).symm⟩
    | some idcol =>
      simp only [hres]
      exact ⟨w1_respondents idcol rows, rfl⟩
  | w2cbop pre rows =>
    exact ⟨∅, (Finset.union_empty _).symm⟩
  | w2dataop pre cols rows =>
    show ∃ ids, (w2_data_run pre cols rows s).respondents = s.respondents ∪ ids
    unfold w2_data_run
    by_cases hc : cols.contains "mb_sn" = true
    · rw [if_pos hc]
      exact ⟨w2_respondents rows, rfl⟩
    · rw [if_neg hc]
      exact ⟨∅, (Finset.union_empty _).symm⟩
  | qpcbop pre rows =>
    exact ⟨∅, (Finset.union_empty _).symm⟩
  | qpdataop pre t p d =>
    show ∃ ids, (qpoll_data_run pre t p d s).respondents = s.respondents ∪ ids
    unfold qpoll_data_run
    cases hres : List.find? (fun c => (List.map pyStrip p).contains c) ID_CANDIDATES with
    | none =>
      simp only [hres]
      exact ⟨∅, (Finset.union_empty _).symm⟩
    | some idcol =>
      simp only [hres]
      exact ⟨_, rfl⟩

/-- C9 (confirmed).  Each ingestion step either inserts respondent ids that
are absent (insert-if-absent: the new respondent set is the old one unioned
with the step's ids, so present ids are untouched) or leaves the set
unchanged (union with `∅`); consequently, over any sequence of ingestion
runs the respondent set never shrinks — a respondent, once created by any
source, is never deleted by ingestion. -/
theorem C9_respondents_never_deleted :
    (∀ (op : IngestOp) (s : Store), ∃ ids : Finset String,
      (op.apply s).respondents = s.respondents ∪ ids) ∧
    (∀ (ops : List IngestOp) (s : Store),
      s.respondents ⊆ (ops.foldl (fun t op => op.apply t) s).respondents) := by
  refine ⟨ingest_respondents_union, ?_⟩
  intro ops
  induction ops with
  | nil => intro s; exact Finset.Subset.refl _
  | cons op tl ih =>
    intro s
    rw [List.foldl_cons]
    refine Finset.Subset.trans ?_ (ih (op.apply s))
    obtain ⟨ids, hids⟩ := ingest_respondents_union op s
    rw [hids]
    exact Finset.subset_union_left

/-! ## Helper lemmas: the qpoll in-file metadata dict -/

/-- Python-dict lookup on the metadata association list. -/
def assocGet (d : List (String × MetaRow)) (k : String) : Option MetaRow :=
  (d.find? (fun p => p.1 = k)).map (fun p => p.2)

theorem assocGet_upsert_self : ∀ (d : List (String × MetaRow)) (k : String) (v : MetaRow),
    assocGet (dictUpsertMeta d k v) k = some v := by
  intro d k v
  unfold dictUpsertMeta assocGet
  by_cases hex : d.any (fun p => p.1 = k) = true
  · rw [if_pos hex]
    induction d with
    | nil => simp at hex
    | cons p tl ih =>
      by_cases hp : p.1 = k
      · rw [List.map_cons, if_pos hp, List.find?_cons_of_pos _ (by simp)]
        rfl
      · rw [List.map_cons, if_neg hp, List.find?_cons_of_neg _ (by simp [hp])]
        refine ih ?_
        simpa [hp] using hex
  · rw [if_neg hex]
    have hnone : d.find? (fun p => decide (p.1 = k)) = none :=
      List.find?_eq_none.mpr (fun x hx => by
        intro hcontra
        exact hex (List.any_eq_true.mpr ⟨x, hx, hcontra⟩))
    rw [List.find?_append, hnone, List.find?_cons_of_pos _ (by simp)]
    rfl

theorem assocGet_upsert_other : ∀ (d : List (String × MetaRow)) (k : String) (v : MetaRow)
    (k' : String), k' ≠ k → assocGet (dictUpsertMeta d k v) k' = assocGet d k' := by
  intro d k v k' hne
  have hkk' : ¬ k = k' := fun h => hne h.symm
  unfold dictUpsertMeta assocGet
  by_cases hex : d.any (fun p => p.1 = k) = true
  · rw [if_pos hex]
    clear hex
    induction d with
    | nil => rfl
    | cons p tl ih =>
      rw [List.map_cons]
      by_cases hp : p.1 = k
      · have hpk' : ¬ p.1 = k' := fun h => hkk' (hp.symm.trans h)
        rw [if_pos hp]
        rw [List.find?_cons_of_neg _ (by simp [hkk']),
          List.find?_cons_of_neg _ (by simp [hpk'])]
        exact ih
      · rw [if_neg hp]
        by_cases hpk : p.1 = k'
        · rw [List.find?_cons_of_pos _ (by simp [hpk]), List.find?_cons_of_pos _ (by simp [hpk])]
        · rw [List.find?_cons_of_neg _ (by simp [hpk]), List.find?_cons_of_neg _ (by simp [hpk])]
          exact ih
  · rw [if_neg hex]
    rw [List.find?_append, List.find?_cons_of_neg _ (by simp [hkk']), List.find?_nil]
    cases List.find? (fun p => decide (p.1 = k')) d <;> rfl

/-- The metadata dict after the whole loop: the entry of a non-empty id is
the tuple built from the LAST row carrying that cleaned id. -/
theorem qpoll_fold_snd_meta (idcol pre : String) (qmap : List (String × String)) :
    ∀ (rows : List Row) (acc : QAcc) (id : String), id ≠ "" →
      assocGet (rows.foldl (qpoll_step idcol pre qmap) acc).2.1 id =
        match (rows.filter (fun row => decide (clean_cell (rowGet row idcol) = id))).getLast? with
        | some row => some (qpoll_row_meta row)
        | none => assocGet acc.2.1 id := by
  intro rows
  induction rows using List.reverseRecOn with
  | nil => intro acc id _; rfl
  | append_singleton tl row ih =>
    intro acc id hid
    rw [List.foldl_append, List.foldl_cons, List.foldl_nil, List.filter_append]
    by_cases hmb : clean_cell (rowGet row idcol) = ""
    · have hstep : qpoll_step idcol pre qmap (tl.foldl (qpoll_step idcol pre qmap) acc) row =
          tl.foldl (qpoll_step idcol pre qmap) acc := by
        unfold qpoll_step
        rw [if_pos hmb]
      have hfil : List.filter (fun r0 => decide (clean_cell (rowGet r0 idcol) = id)) [row]
          = [] := by
        refine List.filter_eq_nil_iff.mpr ?_
        intro a ha
        rw [List.mem_singleton.mp ha]
        simp only [decide_eq_true_eq]
        rw [hmb]
        exact fun h => hid h.symm
      rw [hstep, hfil, List.append_nil]
      exact ih acc id hid
    · have hstep : (qpoll_step idcol pre qmap (tl.foldl (qpoll_step idcol pre qmap) acc)
          row).2.1 = dictUpsertMeta (tl.foldl (qpoll_step idcol pre qmap) acc).2.1
            (clean_cell (rowGet row idcol)) (qpoll_row_meta row) := by
        unfold qpoll_step
        rw [if_neg hmb]
      rw [hstep]
      by_cases hsame : clean_cell (rowGet row idcol) = id
      · rw [← hsame, assocGet_upsert_self]
        have hfil : List.filter
            (fun r0 => decide (clean_cell (rowGet r0 idcol) = clean_cell (rowGet row idcol)))
            [row] = [row] := by simp
        rw [hfil, List.getLast?_concat]
      · rw [assocGet_upsert_other _ _ _ _ (fun h => hsame h.symm)]
        have hfil : List.filter (fun r0 => decide (clean_cell (rowGet r0 idcol) = id)) [row]
            = [] := by
          refine List.filter_eq_nil_iff.mpr ?_
          intro a ha
          rw [List.mem_singleton.mp ha]
          simp only [decide_eq_true_eq]
          exact hsame
        rw [hfil, List.append_nil]
        exact ih acc id hid

/-- The answer list after the whole loop: the per-row record lists of every
non-skipped row, concatenated in file order. -/
theorem qpoll_fold_snd_answers (idcol pre : String) (qmap : List (String × String)) :
    ∀ (rows : List Row) (acc : QAcc),
      (rows.foldl (qpoll_step idcol pre qmap) acc).2.2 =
        acc.2.2 ++ rows.flatMap (fun row =>
          if clean_cell (rowGet row idcol) = "" then []
          else qpoll_row_recs pre qmap (clean_cell (rowGet row idcol)) row) := by
  intro rows
  induction rows with
  | nil => intro acc; simp
  | cons row tl ih =>
    intro acc
    rw [List.foldl_cons, ih, List.flatMap_cons]
    by_cases hmb : clean_cell (rowGet row idcol) = ""
    · have hstep : qpoll_step idcol pre qmap acc row = acc := by
        unfold qpoll_step
        rw [if_pos hmb]
      rw [hstep, if_pos hmb, List.nil_append]
    · have hstep : (qpoll_step idcol pre qmap acc row).2.2 =
          acc.2.2 ++ qpoll_row_recs pre qmap (clean_cell (rowGet row idcol)) row := by
        unfold qpoll_step
        rw [if_neg hmb]
      rw [hstep, if_neg hmb, List.append_assoc]

/-- C10 (confirmed).  When the same non-empty cleaned respondent id occurs
in several rows of one qpoll file: the metadata tuple left in the id-keyed
batch dict is exactly the one built from the LAST such row (later rows
overwrite earlier entries), while the answer records of ALL non-skipped
rows are accumulated, in file order, and all handed to the insert. -/
theorem C10_qpoll_duplicate_rows :
    ∀ (idcol pre : String) (qmap : List (String × String)) (rows : List Row) (id : String),
      id ≠ "" →
      (assocGet (qpoll_fold idcol pre qmap rows).2.1 id =
        match (rows.filter (fun row => decide (clean_cell (rowGet row idcol) = id))).getLast? with
        | some row => some (qpoll_row_meta row)
        | none => none) ∧
      (qpoll_fold idcol pre qmap rows).2.2 =
        rows.flatMap (fun row =>
          if clean_cell (rowGet row idcol) = "" then []
          else qpoll_row_recs pre qmap (clean_cell (rowGet row idcol)) row) := by
  intro idcol pre qmap rows id hid
  constructor
  · rw [qpoll_fold, qpoll_fold_snd_meta idcol pre qmap rows (∅, [], []) id hid]
    cases (rows.filter (fun row => decide (clean_cell (rowGet row idcol) = id))).getLast? <;> rfl
  · rw [qpoll_fold, qpoll_fold_snd_answers idcol pre qmap rows (∅, [], [])]
    rfl

/-- Witness for C10: a file with two rows for respondent `"R"`; the stored
metadata entry is the second row's tuple (age 41, not 30), and both rows'
answer records are kept. -/
theorem C10_qpoll_duplicate_rows_witness :
    (assocGet (qpoll_fold "mb_sn" "qp250106_" [("문항1", "Q")]
        [[("mb_sn", some "R"), ("나이", some "(만 30세)"), ("문항1", some "1")],
         [("mb_sn", some "R"), ("나이", some "(만 41세)"), ("문항1", some "2")]]).2.1 "R" =
      match ([[("mb_sn", (some "R" : Cell)), ("나이", some "(만 30세)"), ("문항1", some "1")],
              [("mb_sn", some "R"), ("나이", some "(만 41세)"), ("문항1", some "2")]].filter
          (fun row => decide (clean_cell (rowGet row "mb_sn") = "R"))).getLast? with
      | some row => some (qpoll_row_meta row)
      | none => none) ∧
    (qpoll_fold "mb_sn" "qp250106_" [("문항1", "Q")]
        [[("mb_sn", some "R"), ("나이", some "(만 30세)"), ("문항1", some "1")],
         [("mb_sn", some "R"), ("나이", some "(만 41세)"), ("문항1", some "2")]]).2.2 =
      [[("mb_sn", (some "R" : Cell)), ("나이", some "(만 30세)"), ("문항1", some "1")],
       [("mb_sn", some "R"), ("나이", some "(만 41세)"), ("문항1", some "2")]].flatMap
        (fun row =>
          if clean_cell (rowGet row "mb_sn") = "" then []
          else qpoll_row_recs "qp250106_" [("문항1", "Q")]
            (clean_cell (rowGet row "mb_sn")) row) :=
  C10_qpoll_duplicate_rows "mb_sn" "qp250106_" [("문항1", "Q")]
    [[("mb_sn", some "R"), ("나이", some "(만 30세)"), ("문항1", some "1")],
     [("mb_sn", some "R"), ("나이", some "(만 41세)"), ("문항1", some "2")]] "R" (by decide)

end Eternal
